import Mathlib

/-!
# Verification of the humanboard canvas interaction engine

A shallow embedding, over exact rational arithmetic, of the canvas
interaction core of the humanboard repository:

* the screen/canvas coordinate converter (`src/input/coords.rs`),
* the spatial index (`src/spatial_index.rs`),
* the input state machine and its pointer handlers
  (`src/input/state.rs`, `src/input/mouse_down.rs`, `src/input/drag.rs`,
  `src/input/mouse_up.rs`),
* the bounded undo/redo history (the `Board` history implementation is not
  part of the sources at hand; it is modelled from the specification and
  calibrated against `tests/it/integration/undo_redo_tests.rs`),
* the webview lifecycle policy (`src/app/preview_webviews.rs`).

Machine `f32` values are embedded as rationals: all quantities the claims
speak about are produced by ring operations, divisions by a nonzero zoom,
comparisons, `min`/`max` and absolute values, so the rational embedding
tracks the real-number semantics of the source exactly.
-/

namespace Humanboard

/-! ## Constants (`src/constants.rs`) -/

/-- `HEADER_HEIGHT` in `src/constants.rs`. -/
def HEADER_HEIGHT : ℚ := 40

/-- `DOCK_WIDTH` in `src/constants.rs`. -/
def DOCK_WIDTH : ℚ := 44

/-- `SPLITTER_WIDTH` in `src/constants.rs`. -/
def SPLITTER_WIDTH : ℚ := 16

/-- `FOOTER_HEIGHT` in `src/constants.rs`. -/
def FOOTER_HEIGHT : ℚ := 28

/-- `DEFAULT_FONT_SIZE` in `src/constants.rs`. -/
def DEFAULT_FONT_SIZE : ℚ := 16

/-- `MIN_FONT_SIZE` in `src/constants.rs`. -/
def MIN_FONT_SIZE : ℚ := 8

/-- `MAX_FONT_SIZE` in `src/constants.rs`. -/
def MAX_FONT_SIZE : ℚ := 200

/-- `MAX_HISTORY_STATES` in `src/constants.rs`. -/
def MAX_HISTORY_STATES : ℕ := 50

/-- `MIN_ZOOM` in `src/constants.rs`. -/
def MIN_ZOOM : ℚ := 1 / 10

/-- `MAX_ZOOM` in `src/constants.rs`. -/
def MAX_ZOOM : ℚ := 5

/-- `WEBVIEW_UNLOAD_DISTANCE` in `src/constants.rs`. -/
def WEBVIEW_UNLOAD_DISTANCE : ℚ := 2000

/-- `WEBVIEW_PRELOAD_DISTANCE` in `src/constants.rs`. -/
def WEBVIEW_PRELOAD_DISTANCE : ℚ := 500

/-- `WEBVIEW_UNLOAD_DELAY_MS` in `src/constants.rs` (milliseconds). -/
def WEBVIEW_UNLOAD_DELAY_MS : ℕ := 300000

/-- `MIN_MARQUEE_SIZE` in `src/constants.rs`. -/
def MIN_MARQUEE_SIZE : ℚ := 5

/-- `MIN_DRAW_DISTANCE` in `src/constants.rs`. -/
def MIN_DRAW_DISTANCE : ℚ := 10

/-- `MIN_ITEM_SIZE` in `src/constants.rs`. -/
def MIN_ITEM_SIZE : ℚ := 50

/-- `MIN_ARROW_SIZE` in `src/constants.rs`. -/
def MIN_ARROW_SIZE : ℚ := 20

/-! ## Coordinate converter (`src/input/coords.rs`)

`CoordinateContext` carries the canvas offset and the zoom; the converter
itself is a pair of pure functions.  Points are pairs of rationals
`(x, y)`. -/

/-- A screen- or canvas-space point: `gpui::Point<Pixels>` embedded as a
pair of rationals. -/
structure Pt where
  x : ℚ
  y : ℚ
deriving DecidableEq, Repr

namespace CoordinateConverter

/-- `CoordinateConverter::screen_to_canvas`:
`((sx - DOCK_WIDTH - ox) / zoom, (sy - HEADER_HEIGHT - oy) / zoom)`. -/
def screen_to_canvas (screen_pos : Pt) (canvas_offset : Pt) (zoom : ℚ) : Pt :=
  { x := (screen_pos.x - DOCK_WIDTH - canvas_offset.x) / zoom
    y := (screen_pos.y - HEADER_HEIGHT - canvas_offset.y) / zoom }

/-- `CoordinateConverter::canvas_to_screen`:
`(cx * zoom + ox + DOCK_WIDTH, cy * zoom + oy + HEADER_HEIGHT)`. -/
def canvas_to_screen (canvas_pos : Pt) (canvas_offset : Pt) (zoom : ℚ) : Pt :=
  { x := canvas_pos.x * zoom + canvas_offset.x + DOCK_WIDTH
    y := canvas_pos.y * zoom + canvas_offset.y + HEADER_HEIGHT }

/-- `CoordinateConverter::delta_screen_to_canvas`: divide both components
by the zoom. -/
def delta_screen_to_canvas (delta : Pt) (zoom : ℚ) : Pt :=
  { x := delta.x / zoom, y := delta.y / zoom }

/-- `CoordinateConverter::delta_canvas_to_screen`: multiply both components
by the zoom. -/
def delta_canvas_to_screen (delta : Pt) (zoom : ℚ) : Pt :=
  { x := delta.x * zoom, y := delta.y * zoom }

end CoordinateConverter

/-! ## Spatial index (`src/spatial_index.rs`)

The Rust `SpatialIndex` keeps an R-tree and a `HashMap<u64, SpatialEntry>`
holding exactly the same set of entries; every operation mutates both in
lock step, and queries traverse the tree.  The embedding keeps the one
shared entry collection as a list.  The R-tree envelope pre-filter of
`query_point` (`locate_in_envelope_intersecting` on a point envelope)
accepts precisely the entries whose closed box contains the point, the
same predicate as the `contains_point` filter applied after it, so the
composition is the single `contains_point` filter. -/

/-- `SpatialEntry` in `src/spatial_index.rs`. -/
structure SpatialEntry where
  item_id : ℕ
  min_x : ℚ
  min_y : ℚ
  max_x : ℚ
  max_y : ℚ
deriving DecidableEq, Repr

namespace SpatialEntry

/-- `SpatialEntry::new`: the box spans `position .. position + size`. -/
def new (item_id : ℕ) (position size : ℚ × ℚ) : SpatialEntry :=
  { item_id := item_id
    min_x := position.1
    min_y := position.2
    max_x := position.1 + size.1
    max_y := position.2 + size.2 }

/-- `SpatialEntry::contains_point`: closed-box containment. -/
def contains_point (e : SpatialEntry) (x y : ℚ) : Bool :=
  decide (e.min_x ≤ x) && decide (x ≤ e.max_x) &&
  decide (e.min_y ≤ y) && decide (y ≤ e.max_y)

/-- Closed AABB intersection, the `Envelope::intersects` predicate used by
`locate_in_envelope_intersecting` in `query_rect`. -/
def intersects_rect (e : SpatialEntry) (min_x min_y max_x max_y : ℚ) : Bool :=
  decide (e.min_x ≤ max_x) && decide (min_x ≤ e.max_x) &&
  decide (e.min_y ≤ max_y) && decide (min_y ≤ e.max_y)

end SpatialEntry

/-- The `SpatialIndex` state: its set of entries (the `entries` map and the
R-tree always hold the same entries). -/
abbrev SpatialIndex := List SpatialEntry

namespace SpatialIndex

/-- `SpatialIndex::new`. -/
def new : SpatialIndex := []

/-- `SpatialIndex::insert`: drop any previous entry for the id from both
the map and the tree, then insert the fresh entry. -/
def insert (s : SpatialIndex) (item_id : ℕ) (position size : ℚ × ℚ) :
    SpatialIndex :=
  s.filter (fun e => e.item_id ≠ item_id) ++ [SpatialEntry.new item_id position size]

/-- `SpatialIndex::remove`: delete the entry for the id when present,
reporting whether one was present. -/
def remove (s : SpatialIndex) (item_id : ℕ) : SpatialIndex × Bool :=
  if s.any (fun e => e.item_id = item_id) then
    (s.filter (fun e => e.item_id ≠ item_id), true)
  else
    (s, false)

/-- `SpatialIndex::update` delegates to `insert`. -/
def update (s : SpatialIndex) (item_id : ℕ) (position size : ℚ × ℚ) :
    SpatialIndex :=
  s.insert item_id position size

/-- `SpatialIndex::query_point`: ids of the entries whose box contains the
point. -/
def query_point (s : SpatialIndex) (x y : ℚ) : List ℕ :=
  (s.filter (fun e => e.contains_point x y)).map (fun e => e.item_id)

/-- `SpatialIndex::query_rect`: ids of the entries whose box intersects the
query rectangle. -/
def query_rect (s : SpatialIndex) (min_x min_y max_x max_y : ℚ) : List ℕ :=
  (s.filter (fun e => e.intersects_rect min_x min_y max_x max_y)).map
    (fun e => e.item_id)

/-- `SpatialIndex::len`: the number of entries. -/
def len (s : SpatialIndex) : ℕ := s.length

end SpatialIndex

/-! ### Operation sequences over the index -/

/-- One operation of the index interface exercised by the claims. -/
inductive SpatialOp where
  | insert (item_id : ℕ) (position size : ℚ × ℚ)
  | update (item_id : ℕ) (position size : ℚ × ℚ)
  | remove (item_id : ℕ)
deriving DecidableEq, Repr

/-- Apply one operation (the `Bool` result of `remove` is discarded when
running a sequence). -/
def SpatialOp.apply (s : SpatialIndex) : SpatialOp → SpatialIndex
  | .insert id pos size => s.insert id pos size
  | .update id pos size => s.update id pos size
  | .remove id => (s.remove id).1

/-- Run a sequence of operations from the empty index. -/
def SpatialIndex.run (ops : List SpatialOp) : SpatialIndex :=
  ops.foldl SpatialOp.apply SpatialIndex.new

/-- Reference model of the index contents: the current (most recently
inserted) position/size for each id, or `none` after a removal. -/
def SpatialIndex.modelBox (ops : List SpatialOp) (id : ℕ) :
    Option ((ℚ × ℚ) × (ℚ × ℚ)) :=
  ops.foldl
    (fun acc op =>
      match op with
      | .insert i pos size => if i = id then some (pos, size) else acc
      | .update i pos size => if i = id then some (pos, size) else acc
      | .remove i => if i = id then none else acc)
    none

/-! ## Types (`src/types.rs`, `src/app`)

`ItemContent` keeps the variant structure of the Rust enum and exactly the
fields the input handlers read (`font_size` of a text box, `end_offset` of
an arrow, `border_width` of a shape); paths, colors and styling strings
never influence the handlers' control flow beyond the variant tag. -/

/-- `ToolType` in `src/types.rs`. -/
inductive ToolType where
  | select | text | arrow | shape | table | chart
deriving DecidableEq, Repr

/-- `SplitDirection` of the preview panel (`src/app`). -/
inductive SplitDirection where
  | vertical | horizontal
deriving DecidableEq, Repr

/-- `SplitterDirection` in `src/input/state.rs`. -/
inductive SplitterDirection where
  | canvasPreview (direction : SplitDirection)
  | paneSplit (horizontal : Bool)
deriving DecidableEq, Repr

/-- `ArrowDirection` in `src/types.rs`: the quadrant of an end offset. -/
inductive ArrowDirection where
  | upRight | upLeft | downRight | downLeft
deriving DecidableEq, Repr

/-- `ArrowDirection::from_offset`: quadrant of `(offset.0 >= 0, offset.1 >= 0)`. -/
def ArrowDirection.from_offset (offset : ℚ × ℚ) : ArrowDirection :=
  if 0 ≤ offset.1 then
    if 0 ≤ offset.2 then .upRight else .downRight
  else
    if 0 ≤ offset.2 then .upLeft else .downLeft

/-- `ArrowDirection::to_signs`. -/
def ArrowDirection.to_signs : ArrowDirection → ℚ × ℚ
  | .upRight => (1, 1)
  | .upLeft => (-1, 1)
  | .downRight => (1, -1)
  | .downLeft => (-1, -1)

/-- `ItemContent` in `src/types.rs`, restricted to the fields the input
handlers read. -/
inductive ItemContent where
  | image
  | text
  | video
  | audio
  | pdf
  | link
  | youtube
  | markdown
  | code
  | textBox (font_size : ℚ)
  | arrow (end_offset : ℚ × ℚ)
  | shape (border_width : ℚ)
  | table (data_source_id : ℕ)
  | chart
deriving DecidableEq, Repr

/-- `CanvasItem` in `src/types.rs`. -/
structure CanvasItem where
  id : ℕ
  position : ℚ × ℚ
  size : ℚ × ℚ
  content : ItemContent
deriving DecidableEq, Repr

/-- Update the first item with the given id in place (the effect of a
successful `get_item_mut` followed by a field assignment); items are keyed
by unique ids. -/
def updateFirst (l : List CanvasItem) (id : ℕ) (f : CanvasItem → CanvasItem) :
    List CanvasItem :=
  match l with
  | [] => []
  | it :: rest => if it.id = id then f it :: rest else it :: updateFirst rest id f

/-- The `Board` fields the input handlers touch.  `history_count` counts
the snapshots committed by `push_history` (the claims about gesture
coalescing only observe how many entries a gesture commits; the full
history structure is modelled separately as `History`). -/
structure Board where
  items : List CanvasItem
  canvas_offset : Pt
  zoom : ℚ
  spatial : SpatialIndex
  next_item_id : ℕ
  data_sources : List ℕ
  next_data_source_id : ℕ
  history_count : ℕ
  dirty : Bool
deriving Repr

namespace Board

/-- Modelled from the spec: `Board::get_item` (board implementation not
under `src/`; the scene model is an id-indexed table, §3/§9) — look up the
item with the given id. -/
def get_item (b : Board) (id : ℕ) : Option CanvasItem :=
  b.items.find? (fun it => it.id = id)

/-- Modelled from the spec: `Board::query_items_at_point` delegates the
point query to the spatial index (§2 data flow, §4.2). -/
def query_items_at_point (b : Board) (x y : ℚ) : List ℕ :=
  b.spatial.query_point x y

/-- Modelled from the spec: `Board::query_items_in_rect` delegates the
rectangle query to the spatial index (§4.3 marquee finalization). -/
def query_items_in_rect (b : Board) (min_x min_y max_x max_y : ℚ) : List ℕ :=
  b.spatial.query_rect min_x min_y max_x max_y

/-- Modelled from the spec: `Board::update_spatial_index` patches the
index entry for one item from its current position and size (§3
`SpatialEntry` is "rebuilt or patched whenever an item's position/size
changes"); absent items leave the index unchanged. -/
def update_spatial_index (b : Board) (id : ℕ) : Board :=
  match b.get_item id with
  | some it => { b with spatial := b.spatial.insert id it.position it.size }
  | none => b

/-- Modelled from the spec: `Board::push_history` commits one snapshot
(§4.4); the handler-level model observes the entry count. -/
def push_history (b : Board) : Board :=
  { b with history_count := b.history_count + 1 }

/-- Modelled from the spec: `Board::mark_dirty`. -/
def mark_dirty (b : Board) : Board :=
  { b with dirty := true }

/-- Modelled from the spec: `Board::add_item` appends a fresh item with a
monotonically assigned id (§3), registers it in the spatial index (§3
invariant) and commits a history snapshot (calibrated against
`tests/it/integration/undo_redo_tests.rs`, where each `add_item` advances
the history index).  The type-specific default size is immaterial here:
every creating caller overwrites the size immediately. -/
def add_item (b : Board) (position : ℚ × ℚ) (content : ItemContent) :
    Board × ℕ :=
  let id := b.next_item_id
  let it : CanvasItem := { id := id, position := position, size := (0, 0), content := content }
  ({ b with
      items := b.items ++ [it]
      next_item_id := id + 1
      spatial := b.spatial.insert id position (0, 0)
      history_count := b.history_count + 1 }, id)

end Board

/-! ## Input state machine (`src/input/state.rs`) -/

/-- `InputState` in `src/input/state.rs`: the unified tagged union for all
mouse interactions. -/
inductive InputState where
  | idle
  | panning (last_pos : Pt)
  | draggingItems (primary_item : ℕ) (drag_offset : Pt)
  | resizingItem (item_id : ℕ) (start_size : ℚ × ℚ) (start_pos : Pt)
      (original_font_size : Option ℚ)
  | marqueeSelecting (start current : Pt)
  | drawing (tool : ToolType) (start current : Pt)
  | splitterDragging (direction : SplitterDirection) (drag_start : Pt)
deriving DecidableEq, Repr

namespace InputState

/-- `InputState::is_dragging`. -/
def is_dragging : InputState → Bool
  | .panning _ | .draggingItems _ _ | .resizingItem _ _ _ _
  | .splitterDragging _ _ => true
  | _ => false

/-- `InputState::is_resizing`. -/
def is_resizing : InputState → Bool
  | .resizingItem _ _ _ _ => true
  | _ => false

/-- `InputState::is_dragging_items`. -/
def is_dragging_items : InputState → Bool
  | .draggingItems _ _ => true
  | _ => false

/-- `InputState::is_idle`. -/
def is_idle : InputState → Bool
  | .idle => true
  | _ => false

/-- `InputState::is_marquee_selecting`. -/
def is_marquee_selecting : InputState → Bool
  | .marqueeSelecting _ _ => true
  | _ => false

/-- `InputState::is_splitter_dragging`. -/
def is_splitter_dragging : InputState → Bool
  | .splitterDragging _ _ => true
  | _ => false

/-- `InputState::is_pane_splitter_dragging`. -/
def is_pane_splitter_dragging : InputState → Bool
  | .splitterDragging (.paneSplit _) _ => true
  | _ => false

/-- `InputState::is_canvas_panning`. -/
def is_canvas_panning : InputState → Bool
  | .panning _ => true
  | _ => false

/-- `InputState::dragging_item` (alias of `dragged_item_id`). -/
def dragging_item : InputState → Option ℕ
  | .draggingItems primary _ => some primary
  | _ => none

/-- `InputState::drag_offset`. -/
def drag_offset : InputState → Option Pt
  | .draggingItems _ offset => some offset
  | _ => none

/-- `InputState::resizing_item`. -/
def resizing_item : InputState → Option ℕ
  | .resizingItem id _ _ _ => some id
  | _ => none

/-- `InputState::resize_start_size`. -/
def resize_start_size : InputState → Option (ℚ × ℚ)
  | .resizingItem _ ss _ _ => some ss
  | _ => none

/-- `InputState::resize_start_pos`. -/
def resize_start_pos : InputState → Option Pt
  | .resizingItem _ _ sp _ => some sp
  | _ => none

/-- `InputState::resize_start_font_size`. -/
def resize_start_font_size : InputState → Option ℚ
  | .resizingItem _ _ _ fs => fs
  | _ => none

/-- `InputState::last_mouse_pos`. -/
def last_mouse_pos : InputState → Option Pt
  | .panning lp => some lp
  | _ => none

/-- `InputState::update_last_mouse_pos`. -/
def update_last_mouse_pos (s : InputState) (pos : Pt) : InputState :=
  match s with
  | .panning _ => .panning pos
  | other => other

/-- `InputState::marquee_start`. -/
def marquee_start : InputState → Option Pt
  | .marqueeSelecting start _ => some start
  | _ => none

/-- `InputState::marquee_current`. -/
def marquee_current : InputState → Option Pt
  | .marqueeSelecting _ current => some current
  | _ => none

/-- `InputState::set_marquee_current`. -/
def set_marquee_current (s : InputState) (current : Pt) : InputState :=
  match s with
  | .marqueeSelecting start _ => .marqueeSelecting start current
  | other => other

end InputState

/-! ## Application state and pointer events

The projection of `Humanboard` (`src/app/state.rs`) that the pointer
handlers read and write: the canvas state (`board`, `selected_items`,
`input_state`, `last_drop_pos`), the tool state (`tools.selected`,
`tools.drawing_start`, `tools.drawing_current`) and the preview panel
geometry.  UI collaborators (`force_canvas_focus`,
`start_textbox_editing`, `open_preview`, `open_table_preview`,
`flush_save`, toasts) live outside this projection and leave it
unchanged; `flush_save` is modelled as succeeding. -/

/-- Preview panel fields read by the handlers. -/
structure PreviewPanel where
  split : SplitDirection
  size : ℚ
  is_pane_split : Bool
  pane_split_horizontal : Bool
  pane_ratio : ℚ
deriving Repr

/-- The interaction-core projection of `Humanboard`. -/
structure AppState where
  board : Option Board
  selected_items : List ℕ
  input_state : InputState
  tool : ToolType
  drawing_start : Option Pt
  drawing_current : Option Pt
  preview : Option PreviewPanel
  last_drop_pos : Option Pt
deriving Repr

/-- `HashSet::insert` on the selection set (sets are modelled as
duplicate-free lists; membership is the only observation the handlers
make besides iteration, and iteration effects are order-independent). -/
def selInsert (sel : List ℕ) (id : ℕ) : List ℕ :=
  if id ∈ sel then sel else sel ++ [id]

/-- `HashSet::remove` on the selection set. -/
def selRemove (sel : List ℕ) (id : ℕ) : List ℕ :=
  sel.filter (fun x => x ≠ id)

/-- Mouse event payload: position, shift modifier, click count. -/
structure MouseEvent where
  position : Pt
  shift : Bool
  click_count : ℕ
deriving Repr

/-- Window size in pixels. -/
structure WindowSize where
  width : ℚ
  height : ℚ
deriving Repr

/-- Rust `f32::clamp`. -/
def rclamp (v lo hi : ℚ) : ℚ := max lo (min v hi)

/-- `Humanboard::screen_to_canvas` (`src/input/transform.rs`): converts
through the board's offset and zoom; identity when no board is open. -/
def AppState.screen_to_canvas (s : AppState) (pos : Pt) (header_offset : ℚ) : Pt :=
  match s.board with
  | some board =>
    { x := (pos.x - DOCK_WIDTH - board.canvas_offset.x) / board.zoom
      y := (pos.y - header_offset - board.canvas_offset.y) / board.zoom }
  | none => pos

/-! ## Mouse down (`src/input/mouse_down.rs`) -/

/-- The shape-border refinement inside the hit-test `find` of
`handle_mouse_down`: a `Shape` item is hit only within `border_hit_area`
of one of its edges; every other content kind passes. -/
def shapeBorderHit (board : Board) (item : CanvasItem) (mouse : Pt) : Bool :=
  match item.content with
  | .shape border_width =>
    let scaled_x := item.position.1 * board.zoom + board.canvas_offset.x + DOCK_WIDTH
    let scaled_y := item.position.2 * board.zoom + board.canvas_offset.y + HEADER_HEIGHT
    let scaled_width := item.size.1 * board.zoom
    let scaled_height := item.size.2 * board.zoom
    let border_hit_area := max (border_width * board.zoom) 8
    decide (mouse.x - scaled_x < border_hit_area) ||
    decide (scaled_x + scaled_width - mouse.x < border_hit_area) ||
    decide (mouse.y - scaled_y < border_hit_area) ||
    decide (scaled_y + scaled_height - mouse.y < border_hit_area)
  | _ => true

/-- The content kinds whose double-click branch returns early from
`handle_mouse_down` (text-box editing, table preview, and the
`Pdf`/`Markdown`/`Code` preview paths, whose `content_path` is always
present). -/
def doubleClickConsumes : ItemContent → Bool
  | .textBox _ => true
  | .table _ => true
  | .pdf => true
  | .markdown => true
  | .code => true
  | _ => false

/-- The `if let Some(item_id) = clicked_item_id` body of
`handle_mouse_down`: selection update, double-click early returns, then
the resize-corner test deciding between `start_resizing` and
`start_dragging`. -/
def mouseDownOnItem (s : AppState) (board : Board) (event : MouseEvent)
    (item_id : ℕ) : AppState :=
  let sel :=
    if event.shift then
      if item_id ∈ s.selected_items then selRemove s.selected_items item_id
      else selInsert s.selected_items item_id
    else if item_id ∈ s.selected_items then s.selected_items
    else [item_id]
  let s1 := { s with selected_items := sel }
  let dcConsumed : Bool := decide (event.click_count = 2) &&
    (match board.get_item item_id with
     | some it => doubleClickConsumes it.content
     | none => false)
  if dcConsumed then s1
  else
    match board.get_item item_id with
    | none => s1
    | some item =>
      let scaled_x := item.position.1 * board.zoom + board.canvas_offset.x + DOCK_WIDTH
      let scaled_y := item.position.2 * board.zoom + board.canvas_offset.y + HEADER_HEIGHT
      let corner_x := scaled_x + item.size.1 * board.zoom
      let corner_y := scaled_y + item.size.2 * board.zoom
      let corner_size := 30 * board.zoom
      let in_corner :=
        corner_x - corner_size ≤ event.position.x ∧ event.position.x ≤ corner_x + 5 ∧
        corner_y - corner_size ≤ event.position.y ∧ event.position.y ≤ corner_y + 5
      if in_corner then
        let original_font_size :=
          match item.content with
          | .textBox font_size => some font_size
          | _ => none
        { s1 with input_state :=
            .resizingItem item_id item.size event.position original_font_size }
      else
        let drag_offset : Pt := ⟨event.position.x - scaled_x, event.position.y - scaled_y⟩
        { s1 with input_state := .draggingItems item_id drag_offset }

/-- `handle_mouse_down` from the drawing-tool shortcut on: tool-priority
drawing start, spatial hit test in reverse z-order, then the item branch
or the empty-canvas branch. -/
def mouseDownCanvas (s : AppState) (board : Board) (event : MouseEvent) : AppState :=
  if s.tool = .text ∨ s.tool = .arrow ∨ s.tool = .shape then
    { s with
        drawing_start := some event.position
        drawing_current := some event.position
        selected_items := [] }
  else
    let canvas_x := (event.position.x - DOCK_WIDTH - board.canvas_offset.x) / board.zoom
    let canvas_y := (event.position.y - HEADER_HEIGHT - board.canvas_offset.y) / board.zoom
    let candidates := board.query_items_at_point canvas_x canvas_y
    let clicked := (board.items.reverse.filter (fun it => it.id ∈ candidates)).find?
        (fun it => shapeBorderHit board it event.position)
    match clicked with
    | some item => mouseDownOnItem s board event item.id
    | none =>
      match s.tool with
      | .select =>
        { s with
            input_state := .marqueeSelecting event.position event.position
            selected_items := if event.shift then s.selected_items else [] }
      | _ =>
        { s with
            drawing_start := some event.position
            drawing_current := some event.position }

/-- `Humanboard::handle_mouse_down` (`src/input/mouse_down.rs`). -/
def handleMouseDown (window : WindowSize) (s : AppState) (event : MouseEvent) :
    AppState :=
  match s.board with
  | none => s
  | some board =>
    match s.preview with
    | some preview =>
      let is_on_splitter : Bool :=
        match preview.split with
        | .vertical => decide (|event.position.x - (1 - preview.size) * window.width| < SPLITTER_WIDTH)
        | .horizontal => decide (|event.position.y - (1 - preview.size) * window.height| < SPLITTER_WIDTH)
      if is_on_splitter then
        { s with input_state :=
            .splitterDragging (.canvasPreview preview.split) event.position }
      else
        let in_preview : Bool :=
          match preview.split with
          | .vertical => decide ((1 - preview.size) * window.width < event.position.x)
          | .horizontal => decide ((1 - preview.size) * window.height < event.position.y)
        if in_preview then s
        else mouseDownCanvas s board event
    | none => mouseDownCanvas s board event

/-! ## Mouse move (`src/input/drag.rs`) -/

/-- Aspect constant `MD_ASPECT_RATIO = 200.0 / 36.0` of the markdown
resize rule in `handle_mouse_move`. -/
def mdAspect : ℚ := 200 / 36

/-- The content-kind tag (`item_type`) computed at the top of the resize
branch of `handle_mouse_move`. -/
inductive ResizeKind where
  | markdown | textbox | arrow | other
deriving DecidableEq, Repr

/-- The `match &item.content` producing `item_type` in the resize branch
(the `ArrowDirection` computed there is unused and dropped). -/
def resizeKind : ItemContent → ResizeKind
  | .markdown => .markdown
  | .textBox _ => .textbox
  | .arrow _ => .arrow
  | _ => .other

/-- The item-resizing branch of `handle_mouse_move`: per-kind size rule
(markdown aspect lock, arrow uniform scale, generic minimum), then the
in-place item update re-applying the arrow end-offset signs and scaling a
text box's font. -/
def resizeMove (s : AppState) (board : Board) (event : MouseEvent) (item_id : ℕ)
    (start_size : ℚ × ℚ) (start_pos : Pt) (original_font_size : Option ℚ) :
    AppState :=
  let zoom := board.zoom
  let delta_x := (event.position.x - start_pos.x) / zoom
  let delta_y := (event.position.y - start_pos.y) / zoom
  let item_type := (board.get_item item_id).map (fun it => resizeKind it.content)
  let nwh : ℚ × ℚ :=
    match item_type with
    | some .markdown =>
      let width := max (start_size.1 + delta_x) 100
      (width, width / mdAspect)
    | some .arrow =>
      let scale_x := (start_size.1 + delta_x) / start_size.1
      let scale_y := (start_size.2 + delta_y) / start_size.2
      let scale := max ((scale_x + scale_y) / 2) (1 / 10)
      (max (start_size.1 * scale) MIN_ARROW_SIZE, max (start_size.2 * scale) MIN_ARROW_SIZE)
    | _ =>
      (max (start_size.1 + delta_x) MIN_ITEM_SIZE, max (start_size.2 + delta_y) MIN_ITEM_SIZE)
  let board1 :=
    { board with items := updateFirst board.items item_id (fun it =>
        let scale := nwh.2 / start_size.2
        let it1 := { it with size := nwh }
        match it1.content with
        | .arrow end_offset =>
          let direction := ArrowDirection.from_offset end_offset
          let signs := direction.to_signs
          { it1 with content := .arrow (nwh.1 * signs.1, nwh.2 * signs.2) }
        | .textBox _ =>
          match original_font_size with
          | some orig_size =>
            { it1 with content := .textBox (min (max (orig_size * scale) MIN_FONT_SIZE) MAX_FONT_SIZE) }
          | none => it1
        | _ => it1) }
  { s with board := some board1.mark_dirty }

/-- The item-dragging branch of `handle_mouse_move`: canvas-space target
from the drag anchor, then group move (same delta for every selected item
when the primary is part of a multi-item selection) or single move. -/
def dragMove (s : AppState) (board : Board) (event : MouseEvent) (item_id : ℕ)
    (offset : Pt) : AppState :=
  let zoom := board.zoom
  let adjusted : Pt := ⟨event.position.x - offset.x, event.position.y - offset.y⟩
  let canvas_pos := CoordinateConverter.screen_to_canvas adjusted board.canvas_offset zoom
  let new_x := canvas_pos.x
  let new_y := canvas_pos.y
  let board1 :=
    match (board.get_item item_id).map (fun it => it.position) with
    | some old =>
      let delta_x := new_x - old.1
      let delta_y := new_y - old.2
      if item_id ∈ s.selected_items ∧ 1 < s.selected_items.length then
        let moved := s.selected_items.foldl
          (fun items id => updateFirst items id (fun it =>
            { it with position := (it.position.1 + delta_x, it.position.2 + delta_y) }))
          board.items
        { board with items := moved }
      else
        { board with items := updateFirst board.items item_id (fun it =>
            { it with position := (new_x, new_y) }) }
    | none => board
  { s with board := some board1.mark_dirty }

/-- The pane-splitter branch of `handle_mouse_move` (only the preview
panel's pane split is touched). -/
def paneSplitterMove (s : AppState) (window : WindowSize) (event : MouseEvent) :
    AppState :=
  match s.preview with
  | some preview =>
    if preview.is_pane_split then
      let mouse_x := event.position.x
      let mouse_y := event.position.y
      let psp : ℚ × ℚ :=
        match preview.split with
        | .vertical =>
          let panel_x := DOCK_WIDTH + (window.width - DOCK_WIDTH) * (1 - preview.size)
          let panel_width := (window.width - DOCK_WIDTH) * preview.size
          if preview.pane_split_horizontal then
            (HEADER_HEIGHT, window.height - HEADER_HEIGHT - FOOTER_HEIGHT)
          else (panel_x, panel_width)
        | .horizontal =>
          let panel_y := HEADER_HEIGHT +
            (window.height - HEADER_HEIGHT - FOOTER_HEIGHT) * (1 - preview.size)
          let panel_height := (window.height - HEADER_HEIGHT - FOOTER_HEIGHT) * preview.size
          if preview.pane_split_horizontal then (panel_y, panel_height)
          else (DOCK_WIDTH, window.width - DOCK_WIDTH)
      let new_r :=
        if preview.pane_split_horizontal then rclamp ((mouse_y - psp.1) / psp.2) (1/5) (4/5)
        else rclamp ((mouse_x - psp.1) / psp.2) (1/5) (4/5)
      { s with preview := some { preview with pane_ratio := new_r } }
    else s
  | none => s

/-- `Humanboard::handle_mouse_move` (`src/input/drag.rs`).  The branch
order follows the source: splitter drags first (any `SplitterDragging`
state enters the first branch, so the pane-splitter branch after it is
unreachable), then resizing, dragging, panning, marquee, and the drawing
preview update. -/
def handleMouseMove (window : WindowSize) (s0 : AppState) (event : MouseEvent) :
    AppState :=
  let s := { s0 with last_drop_pos := some event.position }
  if s.input_state.is_splitter_dragging then
    match s.preview with
    | some preview =>
      let new_size :=
        match preview.split with
        | .vertical => 1 - event.position.x / window.width
        | .horizontal => 1 - event.position.y / window.height
      { s with preview := some { preview with size := rclamp new_size (1/5) (4/5) } }
    | none => s
  else if s.input_state.is_pane_splitter_dragging then
    paneSplitterMove s window event
  else
    match s.board with
    | none => s
    | some board =>
      match s.input_state with
      | .resizingItem item_id start_size start_pos original_font_size =>
        resizeMove s board event item_id start_size start_pos original_font_size
      | .draggingItems item_id offset =>
        dragMove s board event item_id offset
      | .panning last_pos =>
        let delta : Pt := ⟨event.position.x - last_pos.x, event.position.y - last_pos.y⟩
        let board1 : Board :=
          { board with canvas_offset :=
              ⟨board.canvas_offset.x + delta.x, board.canvas_offset.y + delta.y⟩ }
        { s with
            board := some board1.mark_dirty
            input_state := s.input_state.update_last_mouse_pos event.position }
      | .marqueeSelecting _ _ =>
        { s with input_state := s.input_state.set_marquee_current event.position }
      | _ =>
        if s.drawing_start.isSome then { s with drawing_current := some event.position }
        else s

/-! ## Mouse up (`src/input/mouse_up.rs`) -/

/-- The history/spatial-index phase at the top of `handle_mouse_up`: when
the gesture was a drag or resize, refresh the spatial index (the resized
item, or every selected item) and commit exactly one history snapshot;
`flush_save` is a collaborator call outside this projection. -/
def mouseUpHistoryPhase (s : AppState) : AppState :=
  let was_modifying := s.input_state.is_dragging || s.input_state.is_resizing
  if was_modifying then
    match s.board with
    | some board =>
      let board1 :=
        match s.input_state.resizing_item with
        | some resize_id => board.update_spatial_index resize_id
        | none => s.selected_items.foldl (fun b id => b.update_spatial_index id) board
      { s with board := some board1.push_history }
    | none => s
  else s

/-- The marquee-finalization phase of `handle_mouse_up`: a single
rectangle query over the spatial index in canvas coordinates, applied to
the selection with shift toggling. -/
def marqueeFinalize (s : AppState) (event : MouseEvent) : AppState :=
  match s.input_state.marquee_start, s.input_state.marquee_current with
  | some start, some endp =>
    match s.board with
    | some board =>
      let min_x := min start.x endp.x
      let max_x := max start.x endp.x
      let min_y := min start.y endp.y
      let max_y := max start.y endp.y
      if MIN_MARQUEE_SIZE < max_x - min_x ∨ MIN_MARQUEE_SIZE < max_y - min_y then
        let ctx_min := CoordinateConverter.screen_to_canvas ⟨min_x, min_y⟩ board.canvas_offset board.zoom
        let ctx_max := CoordinateConverter.screen_to_canvas ⟨max_x, max_y⟩ board.canvas_offset board.zoom
        let intersecting_ids :=
          board.query_items_in_rect ctx_min.x ctx_min.y ctx_max.x ctx_max.y
        let sel := intersecting_ids.foldl
          (fun sel item_id =>
            if event.shift then
              if item_id ∈ sel then selRemove sel item_id else selInsert sel item_id
            else selInsert sel item_id)
          s.selected_items
        { s with selected_items := sel }
      else s
    | none => s
  | _, _ => s

/-- The drawing-finalization phase of `handle_mouse_up`: the micro-drag
cancel (which returns early, before the final input-state reset), then
item creation according to the active tool, tool reset, and the final
`input_state.reset()`. -/
def drawingFinalize (s : AppState) (event : MouseEvent) : AppState :=
  match s.drawing_start with
  | none => { s with input_state := .idle }
  | some start =>
    let endp := event.position
    let screen_width := |endp.x - start.x|
    let screen_height := |endp.y - start.y|
    if screen_width < MIN_DRAW_DISTANCE ∧ screen_height < MIN_DRAW_DISTANCE then
      { s with drawing_start := none, drawing_current := none, tool := .select }
    else
      let start_canvas := s.screen_to_canvas start HEADER_HEIGHT
      let end_canvas := s.screen_to_canvas endp HEADER_HEIGHT
      let start_x := start_canvas.x
      let start_y := start_canvas.y
      let end_x := end_canvas.x
      let end_y := end_canvas.y
      let width := max |end_x - start_x| MIN_ARROW_SIZE
      let height := max |end_y - start_y| MIN_ARROW_SIZE
      let pos_x := min start_x end_x
      let pos_y := min start_y end_y
      let s1 :=
        match s.tool with
        | .arrow =>
          match s.board with
          | some board =>
            let box_x := min start_x end_x
            let box_y := min start_y end_y
            let box_w := max |end_x - start_x| MIN_ARROW_SIZE
            let box_h := max |end_y - start_y| MIN_ARROW_SIZE
            let arrow_start := (start_x - box_x, start_y - box_y)
            let arrow_end := (end_x - box_x, end_y - box_y)
            let end_offset := (arrow_end.1 - arrow_start.1, arrow_end.2 - arrow_start.2)
            let created := board.add_item (box_x, box_y) (.arrow end_offset)
            let sized := updateFirst created.1.items created.2
              (fun it => { it with size := (box_w, box_h) })
            let board1 := { created.1 with items := sized }
            { s with board := some board1, selected_items := [created.2] }
          | none => s
        | .shape =>
          match s.board with
          | some board =>
            let created := board.add_item (pos_x, pos_y) (.shape 2)
            let sized := updateFirst created.1.items created.2
              (fun it => { it with size := (width, height) })
            let board1 := { created.1 with items := sized }
            { s with board := some board1, selected_items := [created.2] }
          | none => s
        | .text =>
          match s.board with
          | some board =>
            let created := board.add_item (pos_x, pos_y) (.textBox DEFAULT_FONT_SIZE)
            let sized := updateFirst created.1.items created.2
              (fun it => { it with size := (max width 100, max height 40) })
            let board1 := { created.1 with items := sized }
            { s with board := some board1, selected_items := [created.2] }
          | none => s
        | .table =>
          match s.board with
          | some board =>
            let ds_id := board.next_data_source_id
            let board0 := { board with
              data_sources := board.data_sources ++ [ds_id]
              next_data_source_id := ds_id + 1 }
            let created := board0.add_item (pos_x, pos_y) (.table ds_id)
            let sized := updateFirst created.1.items created.2
              (fun it => { it with size := (max width 300, max height 200) })
            let board1 := { created.1 with items := sized }
            { s with board := some board1, selected_items := [created.2] }
          | none => s
        | .chart => s
        | .select => s
      { s1 with
          tool := .select
          drawing_start := none
          drawing_current := none
          input_state := .idle }

/-- `Humanboard::handle_mouse_up` (`src/input/mouse_up.rs`): history and
spatial-index phase, marquee finalization, drawing finalization, final
reset to `Idle`. -/
def handleMouseUp (s : AppState) (event : MouseEvent) : AppState :=
  drawingFinalize (marqueeFinalize (mouseUpHistoryPhase s) event) event

/-! ## Pointer event sequences and the interaction modes -/

/-- A raw pointer event. -/
inductive PointerEvent where
  | down (e : MouseEvent)
  | move (e : MouseEvent)
  | up (e : MouseEvent)
deriving Repr

/-- Dispatch one pointer event to its handler. -/
def AppState.step (window : WindowSize) (s : AppState) : PointerEvent → AppState
  | .down e => handleMouseDown window s e
  | .move e => handleMouseMove window s e
  | .up e => handleMouseUp s e

/-- Run a sequence of pointer events. -/
def AppState.run (window : WindowSize) (s : AppState) (es : List PointerEvent) :
    AppState :=
  es.foldl (AppState.step window) s

/-- The Drawing mode is active whenever the handlers' drawing-start marker
(`tools.drawing_start`) is set (the handlers track in-flight drawing there
rather than in the `InputState::Drawing` variant, which is also counted). -/
def AppState.drawingActive (s : AppState) : Bool :=
  s.drawing_start.isSome ||
  (match s.input_state with
   | .drawing _ _ _ => true
   | _ => false)

/-- How many of the seven interaction modes are active: Idle (no other
mode), Panning, DraggingItems, ResizingItem, MarqueeSelecting, Drawing
(the drawing-start marker), SplitterDragging. -/
def AppState.modeCount (s : AppState) : ℕ :=
  (s.input_state.is_idle && !s.drawingActive).toNat +
  s.input_state.is_canvas_panning.toNat +
  s.input_state.is_dragging_items.toNat +
  s.input_state.is_resizing.toNat +
  s.input_state.is_marquee_selecting.toNat +
  s.drawingActive.toNat +
  s.input_state.is_splitter_dragging.toNat

/-! ## History Manager

The `Board` history implementation (`board.rs`) is not among the source
files at hand — only its tests (`tests/it/integration/undo_redo_tests.rs`)
and callers are — so the History Manager is modelled from §4.4 of the
specification. -/

/-- Modelled from the spec: the History Manager state (§4.4, §3
`HistoryEntry`) — missing `board.rs` — a bounded ordered sequence of
snapshots with a cursor pointing at the entry that reflects the current
scene.  Calibrated against `undo_redo_tests.rs`: a fresh board holds a
baseline snapshot at index 0 and `current_history_index` equals the
cursor. -/
structure History (α : Type) where
  entries : List α
  cursor : ℕ
deriving Repr

namespace History

/-- Modelled from the spec: a fresh history holding the baseline
snapshot. -/
def init {α : Type} (s0 : α) : History α :=
  { entries := [s0], cursor := 0 }

/-- Modelled from the spec: `commit` (§4.4) — discard all entries ahead of
the cursor ("branch pruning"), append the snapshot, and drop the oldest
entries once more than `cap` past entries (plus the current one) are
retained. -/
def commit {α : Type} (cap : ℕ) (h : History α) (snap : α) : History α :=
  let appended := h.entries.take (h.cursor + 1) ++ [snap]
  if cap + 1 < appended.length then
    { entries := appended.drop (appended.length - (cap + 1)), cursor := cap }
  else
    { entries := appended, cursor := appended.length - 1 }

/-- Modelled from the spec: `undo` — step the cursor back when an earlier
entry exists, otherwise a no-op returning `false`. -/
def undo {α : Type} (h : History α) : History α × Bool :=
  if 0 < h.cursor then ({ h with cursor := h.cursor - 1 }, true)
  else (h, false)

/-- Modelled from the spec: `redo` — step the cursor forward when a later
entry exists, otherwise a no-op returning `false`. -/
def redo {α : Type} (h : History α) : History α × Bool :=
  if h.cursor + 1 < h.entries.length then ({ h with cursor := h.cursor + 1 }, true)
  else (h, false)

/-- Commit a list of snapshots in order. -/
def commitAll {α : Type} (cap : ℕ) (h : History α) (snaps : List α) : History α :=
  snaps.foldl (commit cap) h

end History

/-! ## Webview lifecycle policy (`src/app/preview_webviews.rs`)

`ensure_youtube_webviews` embedded as a pure tick over the projection it
reads and writes: the set of live webviews (`webviews.youtube`, keyed by
item id — the handle itself does not influence the policy) and the
out-of-range markers (`webviews.out_of_range_since`).  The items of the
relevant content kind and the viewport (from `get_viewport_bounds`) are
the tick's inputs; times are naturals in milliseconds, and
`YouTubeWebView::new` is modelled as succeeding. -/

/-- An item as seen by the lifecycle policy. -/
structure PolicyItem where
  id : ℕ
  position : ℚ × ℚ
  size : ℚ × ℚ
deriving DecidableEq, Repr

/-- `Humanboard::item_distance_to_viewport`: distance to the viewport edge,
zero when overlapping. -/
def item_distance_to_viewport (item_pos item_size : ℚ × ℚ)
    (viewport : ℚ × ℚ × ℚ × ℚ) : ℚ :=
  let vp_left := viewport.1
  let vp_top := viewport.2.1
  let vp_right := viewport.2.2.1
  let vp_bottom := viewport.2.2.2
  let dist_left := vp_left - (item_pos.1 + item_size.1)
  let dist_right := item_pos.1 - vp_right
  let dist_top := vp_top - (item_pos.2 + item_size.2)
  let dist_bottom := item_pos.2 - vp_bottom
  max (max (max dist_left 0) (max dist_right 0))
    (max (max dist_top 0) (max dist_bottom 0))

/-- The webview bookkeeping state: live webview ids and the
"became out-of-range at time T" markers. -/
structure WebviewState where
  webviews : List ℕ
  out_of_range_since : List (ℕ × ℕ)
deriving DecidableEq, Repr

/-- Look up the out-of-range marker for an id. -/
def markerLookup (m : List (ℕ × ℕ)) (id : ℕ) : Option ℕ :=
  (m.find? (fun e => e.1 = id)).map (fun e => e.2)

/-- `HashMap::entry(id).or_insert(t)`: keep an existing marker, otherwise
record `t`. -/
def markerInsert (m : List (ℕ × ℕ)) (id : ℕ) (t : ℕ) : List (ℕ × ℕ) :=
  if (m.find? (fun e => e.1 = id)).isSome then m else m ++ [(id, t)]

/-- The creation loop of `ensure_youtube_webviews`: items within
`WEBVIEW_PRELOAD_DISTANCE` have their marker cleared and a webview created
when absent (no viewport means distance `0`). -/
def createStep (viewport : Option (ℚ × ℚ × ℚ × ℚ)) (st : WebviewState)
    (it : PolicyItem) : WebviewState :=
  let distance :=
    match viewport with
    | some vp => item_distance_to_viewport it.position it.size vp
    | none => 0
  if distance ≤ WEBVIEW_PRELOAD_DISTANCE then
    let st1 := { st with
      out_of_range_since := st.out_of_range_since.filter (fun e => e.1 ≠ it.id) }
    if it.id ∈ st1.webviews then st1
    else { st1 with webviews := st1.webviews ++ [it.id] }
  else st

/-- One step of the removal scan of `ensure_youtube_webviews`: an id whose
item vanished from the scene is removed unconditionally; an id whose item
sits farther than `WEBVIEW_UNLOAD_DISTANCE` gets its marker recorded on
first sight (`entry().or_insert(now)`) and is removed once the marker is
at least `WEBVIEW_UNLOAD_DELAY_MS` old; every other id is kept. -/
def unloadStep (items : List PolicyItem) (viewport : Option (ℚ × ℚ × ℚ × ℚ))
    (now : ℕ) (acc : List (ℕ × ℕ) × List ℕ) (id : ℕ) : List (ℕ × ℕ) × List ℕ :=
  if items.all (fun it => it.id ≠ id) then (acc.1, acc.2 ++ [id])
  else
    match viewport with
    | some vp =>
      match items.find? (fun it => it.id = id) with
      | some it =>
        let distance := item_distance_to_viewport it.position it.size vp
        if WEBVIEW_UNLOAD_DISTANCE < distance then
          let out_since := (markerLookup acc.1 id).getD now
          let m1 := markerInsert acc.1 id now
          if WEBVIEW_UNLOAD_DELAY_MS ≤ now - out_since then (m1, acc.2 ++ [id])
          else (m1, acc.2)
        else (acc.1, acc.2)
      | none => (acc.1, acc.2)
    | none => (acc.1, acc.2)

/-- `Humanboard::ensure_youtube_webviews` as one policy tick: clear
everything when no board is open; otherwise run the creation loop, the
removal scan, and delete the collected ids from both maps. -/
def ensure_youtube_webviews (board_items : Option (List PolicyItem))
    (viewport : Option (ℚ × ℚ × ℚ × ℚ)) (now : ℕ) (st : WebviewState) :
    WebviewState :=
  match board_items with
  | none => { webviews := [], out_of_range_since := [] }
  | some items =>
    let st1 := items.foldl (createStep viewport) st
    let scanned := st1.webviews.foldl (unloadStep items viewport now)
      (st1.out_of_range_since, [])
    { webviews := st1.webviews.filter (fun id => id ∉ scanned.2)
      out_of_range_since := scanned.1.filter (fun e => e.1 ∉ scanned.2) }

/-- One observed policy tick: the board's policy items, the viewport, and
the tick time. -/
structure Tick where
  items : List PolicyItem
  viewport : Option (ℚ × ℚ × ℚ × ℚ)
  now : ℕ
deriving Repr

/-- Run a sequence of policy ticks (board open throughout). -/
def runTicks (ts : List Tick) (st : WebviewState) : WebviewState :=
  ts.foldl (fun st t => ensure_youtube_webviews (some t.items) t.viewport t.now st) st

/-- The tick observes every scene entry for `id` farther than the unload
distance (and at least one such entry exists, with a viewport present). -/
def tickSeesOut (t : Tick) (id : ℕ) : Prop :=
  ∃ vp, t.viewport = some vp ∧
    (∃ it ∈ t.items, it.id = id) ∧
    ∀ it ∈ t.items, it.id = id →
      WEBVIEW_UNLOAD_DISTANCE < item_distance_to_viewport it.position it.size vp

/-! ## Derived observations used by the statements -/

/-- The ids stored in the index, in entry order. -/
def SpatialIndex.keys (s : SpatialIndex) : List ℕ :=
  s.map (fun e => e.item_id)

/-- The entry stored for an id, if any. -/
def SpatialIndex.entryFor (s : SpatialIndex) (id : ℕ) : Option SpatialEntry :=
  s.find? (fun e => e.item_id = id)

/-- The machine is idle with the drawing-start marker clear: the state in
which `handle_mouse_down` is reached in a single-pointer gesture
discipline (a new gesture can only begin once the previous one was
finalized). -/
def AppState.combinedIdle (s : AppState) : Prop :=
  s.input_state = .idle ∧ s.drawing_start = none

/-- A pointer-event sequence is gesture-disciplined from `s`: every
pointer-down is delivered in the combined idle state. -/
def okSeq (window : WindowSize) : AppState → List PointerEvent → Prop
  | _, [] => True
  | s, e :: es =>
    (∀ ev, e = .down ev → s.combinedIdle) ∧ okSeq window (s.step window e) es

/-! ## Concrete scenarios

Closed boards, states and event sequences used to evaluate the handlers at
specific inputs. -/

/-- A board holding one plain-text item `0` at the origin with size
`100 × 100`, its spatial entry registered. -/
def boardOneText : Board :=
  { items := [{ id := 0, position := (0, 0), size := (100, 100), content := .text }]
    canvas_offset := ⟨0, 0⟩
    zoom := 1
    spatial := [SpatialEntry.new 0 (0, 0) (100, 100)]
    next_item_id := 1
    data_sources := []
    next_data_source_id := 0
    history_count := 0
    dirty := false }

/-- A board holding one arrow item `0` with stored end offset `(100, 100)`
(up-right quadrant). -/
def boardOneArrow : Board :=
  { items := [{ id := 0, position := (0, 0), size := (100, 100),
                content := .arrow (100, 100) }]
    canvas_offset := ⟨0, 0⟩
    zoom := 1
    spatial := [SpatialEntry.new 0 (0, 0) (100, 100)]
    next_item_id := 1
    data_sources := []
    next_data_source_id := 0
    history_count := 0
    dirty := false }

/-- The application state for the exclusivity counterexample: the Table
tool is active over `boardOneText`, everything idle. -/
def stateTableTool : AppState :=
  { board := some boardOneText
    selected_items := []
    input_state := .idle
    tool := .table
    drawing_start := none
    drawing_current := none
    preview := none
    last_drop_pos := none }

/-- The application state for the drag-gesture evaluation: item `0` is
already selected, select tool active over `boardOneText`. -/
def stateItemSelected : AppState :=
  { board := some boardOneText
    selected_items := [0]
    input_state := .idle
    tool := .select
    drawing_start := none
    drawing_current := none
    preview := none
    last_drop_pos := none }

/-- The application state for the group-move witness: a drag of item `0`
(the sole selected item) is in flight with anchor offset `(20, 20)`. -/
def stateDraggingItem : AppState :=
  { board := some boardOneText
    selected_items := [0]
    input_state := .draggingItems 0 ⟨20, 20⟩
    tool := .select
    drawing_start := none
    drawing_current := none
    preview := none
    last_drop_pos := none }

/-- The application state for the arrow-resize evaluation: a resize of
arrow item `0` is in flight, anchored at screen point `(300, 300)` with
start size `100 × 100`. -/
def stateResizingArrow : AppState :=
  { board := some boardOneArrow
    selected_items := [0]
    input_state := .resizingItem 0 (100, 100) ⟨300, 300⟩ none
    tool := .select
    drawing_start := none
    drawing_current := none
    preview := none
    last_drop_pos := none }

/-- A reference window size. -/
def window0 : WindowSize := ⟨1920, 1080⟩

/-- First eviction tick: item `7` sits at distance `2900` from the
viewport `(0, 0)–(100, 100)`, observed at time `0`. -/
def tickFar : Tick :=
  { items := [{ id := 7, position := (3000, 0), size := (10, 10) }]
    viewport := some (0, 0, 100, 100)
    now := 0 }

/-- Second eviction tick: item `7` re-entered to distance `1000` — within
the unload distance but beyond the preload distance — observed at time
`WEBVIEW_UNLOAD_DELAY_MS - 1`. -/
def tickBand : Tick :=
  { items := [{ id := 7, position := (1100, 0), size := (10, 10) }]
    viewport := some (0, 0, 100, 100)
    now := WEBVIEW_UNLOAD_DELAY_MS - 1 }

/-- Third eviction tick: item `7` back out at distance `2900`, observed at
time `WEBVIEW_UNLOAD_DELAY_MS`. -/
def tickFar2 : Tick :=
  { items := [{ id := 7, position := (3000, 0), size := (10, 10) }]
    viewport := some (0, 0, 100, 100)
    now := WEBVIEW_UNLOAD_DELAY_MS }

/-! # Theorems -/

/- The core rational operations are `@[irreducible]` by default, which
blocks definitional evaluation of the embedded handlers on concrete
scenarios; restore the definitional behaviour locally. -/
attribute [local semireducible] Rat.add Rat.sub Rat.mul Rat.inv

/-- C2: Coordinate-transform round trip — for every screen point `p`,
every pan offset `o`, and every zoom `z` in `[MIN_ZOOM, MAX_ZOOM]`,
`canvas_to_screen (screen_to_canvas p o z) o z` yields `p` again within a
tolerance of `1e-3` in each coordinate (the rational computation is in
fact exact). -/
theorem coordinate_roundtrip (p o : Pt) (z : ℚ)
    (hmin : MIN_ZOOM ≤ z) (hmax : z ≤ MAX_ZOOM) :
    |(CoordinateConverter.canvas_to_screen
        (CoordinateConverter.screen_to_canvas p o z) o z).x - p.x| ≤ 1 / 1000 ∧
    |(CoordinateConverter.canvas_to_screen
        (CoordinateConverter.screen_to_canvas p o z) o z).y - p.y| ≤ 1 / 1000 := by
  have hz : z ≠ 0 := by
    intro h
    rw [h] at hmin
    norm_num [MIN_ZOOM] at hmin
  constructor <;>
    simp [CoordinateConverter.canvas_to_screen, CoordinateConverter.screen_to_canvas,
      div_mul_cancel₀ _ hz]

/-- Witness for C2 at `p = (1234, 567)`, `o = (10, -20)`, `z = 2`. -/
theorem coordinate_roundtrip_witness :
    MIN_ZOOM ≤ 2 ∧ (2 : ℚ) ≤ MAX_ZOOM ∧
    (|(CoordinateConverter.canvas_to_screen
        (CoordinateConverter.screen_to_canvas ⟨1234, 567⟩ ⟨10, -20⟩ 2) ⟨10, -20⟩ 2).x
        - (1234 : ℚ)| ≤ 1 / 1000 ∧
     |(CoordinateConverter.canvas_to_screen
        (CoordinateConverter.screen_to_canvas ⟨1234, 567⟩ ⟨10, -20⟩ 2) ⟨10, -20⟩ 2).y
        - (567 : ℚ)| ≤ 1 / 1000) :=
  ⟨by norm_num [MIN_ZOOM], by norm_num [MAX_ZOOM],
    coordinate_roundtrip ⟨1234, 567⟩ ⟨10, -20⟩ 2 (by norm_num [MIN_ZOOM])
      (by norm_num [MAX_ZOOM])⟩

/-! ### Spatial index lemmas -/

theorem entryFor_filterNe (s : SpatialIndex) (i id : ℕ) :
    SpatialIndex.entryFor (s.filter (fun e => e.item_id ≠ i)) id =
      if id = i then none else s.entryFor id := by
  unfold SpatialIndex.entryFor
  induction s with
  | nil => simp
  | cons e rest ih =>
    by_cases he : e.item_id = i
    · rw [List.filter_cons_of_neg (by simp [he])]
      rw [ih]
      by_cases h : id = i
      · simp [h]
      · have hne : ¬ e.item_id = id := by rw [he]; exact fun hh => h hh.symm
        simp [h, List.find?_cons_of_neg, hne]
    · rw [List.filter_cons_of_pos (by simp [he])]
      by_cases hid : e.item_id = id
      · have h : ¬ id = i := by rw [← hid]; exact he
        simp [h, List.find?_cons_of_pos, hid]
      · rw [List.find?_cons_of_neg _ (by simpa using hid),
          List.find?_cons_of_neg _ (by simpa using hid)]
        exact ih

theorem entryFor_insert (s : SpatialIndex) (i id : ℕ) (pos size : ℚ × ℚ) :
    (s.insert i pos size).entryFor id =
      if id = i then some (SpatialEntry.new i pos size) else s.entryFor id := by
  have hnew : (SpatialEntry.new i pos size).item_id = i := rfl
  unfold SpatialIndex.insert
  by_cases h : id = i
  · subst h
    rw [SpatialIndex.entryFor, List.find?_append]
    have hleft : List.find? (fun e => e.item_id = id)
        (s.filter (fun e => e.item_id ≠ id)) = none := by
      have := entryFor_filterNe s id id
      simpa [SpatialIndex.entryFor] using this
    rw [hleft]
    simp [List.find?, hnew]
  · rw [SpatialIndex.entryFor, List.find?_append]
    have hleft := entryFor_filterNe s i id
    rw [SpatialIndex.entryFor] at hleft
    rw [hleft]
    have hnot : ¬ (SpatialEntry.new i pos size).item_id = id := by
      rw [hnew]; exact fun hh => h hh.symm
    simp [h, List.find?, hnot]

theorem entryFor_remove (s : SpatialIndex) (i id : ℕ) :
    ((s.remove i).1).entryFor id = if id = i then none else s.entryFor id := by
  unfold SpatialIndex.remove
  by_cases hany : s.any (fun e => e.item_id = i)
  · simpa [hany] using entryFor_filterNe s i id
  · simp only [hany]
    by_cases h : id = i
    · subst h
      have hnone : s.entryFor id = none := by
        rw [SpatialIndex.entryFor, List.find?_eq_none]
        intro e he
        simp only [List.any_eq_true] at hany
        push_neg at hany
        simpa using hany e he
      simp [hnone]
    · simp [h]

theorem keys_insert_nodup (s : SpatialIndex) (i : ℕ) (pos size : ℚ × ℚ)
    (h : s.keys.Nodup) : (s.insert i pos size).keys.Nodup := by
  unfold SpatialIndex.insert SpatialIndex.keys at *
  rw [List.map_append]
  apply List.Nodup.append
  · exact h.sublist ((List.filter_sublist s).map _)
  · simp [SpatialEntry.new]
  · intro a ha hb
    simp only [SpatialEntry.new, List.map_cons, List.map_nil, List.mem_singleton] at hb
    subst hb
    rcases List.mem_map.mp ha with ⟨e, he, hei⟩
    rcases List.mem_filter.mp he with ⟨_, hpred⟩
    simp_all

theorem keys_remove_nodup (s : SpatialIndex) (i : ℕ)
    (h : s.keys.Nodup) : ((s.remove i).1).keys.Nodup := by
  unfold SpatialIndex.remove
  by_cases hany : s.any (fun e => e.item_id = i) <;> simp only [hany]
  · exact h.sublist ((List.filter_sublist s).map _)
  · simpa using h

theorem run_keys_nodup (ops : List SpatialOp) :
    (SpatialIndex.run ops).keys.Nodup := by
  suffices h : ∀ (s : SpatialIndex), s.keys.Nodup →
      (ops.foldl SpatialOp.apply s).keys.Nodup by
    exact h SpatialIndex.new (by simp [SpatialIndex.new, SpatialIndex.keys])
  induction ops with
  | nil => exact fun s hs => hs
  | cons op rest ih =>
    intro s hs
    refine ih _ ?_
    cases op with
    | insert id pos size => exact keys_insert_nodup s id pos size hs
    | update id pos size => exact keys_insert_nodup s id pos size hs
    | remove id => exact keys_remove_nodup s id hs

theorem run_entryFor (ops : List SpatialOp) (id : ℕ) :
    (SpatialIndex.run ops).entryFor id =
      (SpatialIndex.modelBox ops id).map (fun b => SpatialEntry.new id b.1 b.2) := by
  induction ops using List.reverseRecOn with
  | nil => simp [SpatialIndex.run, SpatialIndex.modelBox, SpatialIndex.new, SpatialIndex.entryFor]
  | append_singleton ops op ih =>
    rw [SpatialIndex.run, List.foldl_append, SpatialIndex.modelBox, List.foldl_append]
    rw [SpatialIndex.run] at ih
    rw [SpatialIndex.modelBox] at ih
    cases op with
    | insert i pos size =>
      simp only [List.foldl_cons, List.foldl_nil, SpatialOp.apply]
      rw [entryFor_insert, ih]
      by_cases h : id = i
      · subst h
        simp
      · have h' : ¬ i = id := fun hh => h hh.symm
        simp [h, h']
    | update i pos size =>
      simp only [List.foldl_cons, List.foldl_nil, SpatialOp.apply, SpatialIndex.update]
      rw [entryFor_insert, ih]
      by_cases h : id = i
      · subst h
        simp
      · have h' : ¬ i = id := fun hh => h hh.symm
        simp [h, h']
    | remove i =>
      simp only [List.foldl_cons, List.foldl_nil, SpatialOp.apply]
      rw [entryFor_remove, ih]
      by_cases h : id = i
      · subst h
        simp
      · have h' : ¬ i = id := fun hh => h hh.symm
        simp [h, h']

theorem entryFor_eq_of_mem (s : SpatialIndex) (id : ℕ) :
    s.keys.Nodup → ∀ e ∈ s, e.item_id = id → s.entryFor id = some e := by
  induction s with
  | nil =>
    intro _ e he
    cases he
  | cons a rest ih =>
    intro hnd e he hid
    rcases List.mem_cons.mp he with he | he
    · subst he
      simp [SpatialIndex.entryFor, List.find?_cons, hid]
    · have hnd' : (SpatialIndex.keys rest).Nodup := by
        simpa [SpatialIndex.keys] using List.Nodup.of_cons hnd
      by_cases ha : a.item_id = id
      · exfalso
        have hmm : a.item_id ∈ rest.map (fun x => x.item_id) :=
          List.mem_map.mpr ⟨e, he, by rw [hid, ha]⟩
        simp only [SpatialIndex.keys, List.map_cons, List.nodup_cons] at hnd
        exact hnd.1 hmm
      · simpa [SpatialIndex.entryFor, List.find?_cons, ha] using ih hnd' e he hid

theorem mem_filtered_ids_iff (s : SpatialIndex) (hnd : s.keys.Nodup)
    (p : SpatialEntry → Bool) (id : ℕ) :
    id ∈ (s.filter p).map (fun e => e.item_id) ↔
      ∃ e, s.entryFor id = some e ∧ p e := by
  constructor
  · intro h
    rcases List.mem_map.mp h with ⟨e, he, hei⟩
    rcases List.mem_filter.mp he with ⟨hmem, hp⟩
    exact ⟨e, entryFor_eq_of_mem s id hnd e hmem hei, hp⟩
  · rintro ⟨e, hfind, hp⟩
    have hmem : e ∈ s := List.mem_of_find?_eq_some hfind
    have hid : e.item_id = id := by
      have := List.find?_some hfind
      simpa using this
    exact List.mem_map.mpr ⟨e, List.mem_filter.mpr ⟨hmem, hp⟩, hid⟩

/-- C3: Spatial-index consistency — after any sequence of
insert/update/remove operations, `query_point` returns exactly the ids
whose current (most recently inserted) bounding box contains the point,
`query_rect` exactly those whose current box intersects the rectangle, the
stored entry for each id is the one of its most recent insertion
(insertion replaces rather than duplicates), no id has two entries, and
`len` counts each id once. -/
theorem spatial_index_consistency (ops : List SpatialOp)
    (x y qmin_x qmin_y qmax_x qmax_y : ℚ) (id : ℕ) :
    (id ∈ (SpatialIndex.run ops).query_point x y ↔
      ∃ b, SpatialIndex.modelBox ops id = some b ∧
        (SpatialEntry.new id b.1 b.2).contains_point x y) ∧
    (id ∈ (SpatialIndex.run ops).query_rect qmin_x qmin_y qmax_x qmax_y ↔
      ∃ b, SpatialIndex.modelBox ops id = some b ∧
        (SpatialEntry.new id b.1 b.2).intersects_rect qmin_x qmin_y qmax_x qmax_y) ∧
    (SpatialIndex.run ops).entryFor id =
      (SpatialIndex.modelBox ops id).map (fun b => SpatialEntry.new id b.1 b.2) ∧
    (SpatialIndex.run ops).keys.Nodup ∧
    (SpatialIndex.run ops).len = (SpatialIndex.run ops).keys.dedup.length := by
  have hnd := run_keys_nodup ops
  have hef := run_entryFor ops id
  refine ⟨?_, ?_, hef, hnd, ?_⟩
  · rw [SpatialIndex.query_point, mem_filtered_ids_iff _ hnd, hef]
    constructor
    · rintro ⟨e, he, hp⟩
      rcases Option.map_eq_some'.mp he with ⟨b, hb, rfl⟩
      exact ⟨b, hb, hp⟩
    · rintro ⟨b, hb, hp⟩
      exact ⟨_, by simp [hb], hp⟩
  · rw [SpatialIndex.query_rect, mem_filtered_ids_iff _ hnd, hef]
    constructor
    · rintro ⟨e, he, hp⟩
      rcases Option.map_eq_some'.mp he with ⟨b, hb, rfl⟩
      exact ⟨b, hb, hp⟩
    · rintro ⟨b, hb, hp⟩
      exact ⟨_, by simp [hb], hp⟩
  · rw [hnd.dedup]
    simp [SpatialIndex.len, SpatialIndex.keys]

theorem filter_length_of_mem (s : SpatialIndex) (id : ℕ) (hnd : s.keys.Nodup)
    (hmem : ∃ e ∈ s, e.item_id = id) :
    (s.filter (fun e => e.item_id ≠ id)).length + 1 = s.length := by
  induction s with
  | nil => simp at hmem
  | cons a rest ih =>
    have hnd' : (SpatialIndex.keys rest).Nodup := by
      simpa [SpatialIndex.keys] using List.Nodup.of_cons hnd
    by_cases ha : a.item_id = id
    · rw [List.filter_cons_of_neg (by simp [ha])]
      have hnone : (rest.filter (fun e => e.item_id ≠ id)) = rest := by
        apply List.filter_eq_self.mpr
        intro e he
        simp only [SpatialIndex.keys, List.map_cons, List.nodup_cons] at hnd
        simp only [ne_eq, decide_eq_true_eq]
        intro hc
        exact hnd.1 (List.mem_map.mpr ⟨e, he, by rw [hc, ha]⟩)
      rw [hnone]
      simp
    · rw [List.filter_cons_of_pos (by simp [ha])]
      rcases hmem with ⟨e, he, hid⟩
      rcases List.mem_cons.mp he with he | he
      · exact absurd (he ▸ hid) ha
      · simpa using ih hnd' ⟨e, he, hid⟩

/-- C10: Remove semantics of the spatial index — for every reachable
index state, `remove id` returns `true` iff an entry for `id` is present;
when `true`, `len` drops by exactly one and no subsequent point or
rectangle query returns `id`; when `false`, the index is unchanged. -/
theorem spatial_remove_semantics (ops : List SpatialOp) (id : ℕ) :
    (((SpatialIndex.run ops).remove id).2 = true ↔
      ∃ e ∈ SpatialIndex.run ops, e.item_id = id) ∧
    (((SpatialIndex.run ops).remove id).2 = true →
      ((SpatialIndex.run ops).remove id).1.len + 1 = (SpatialIndex.run ops).len ∧
      (∀ x y : ℚ, id ∉ ((SpatialIndex.run ops).remove id).1.query_point x y) ∧
      (∀ a b c d : ℚ, id ∉ ((SpatialIndex.run ops).remove id).1.query_rect a b c d)) ∧
    (((SpatialIndex.run ops).remove id).2 = false →
      ((SpatialIndex.run ops).remove id).1 = SpatialIndex.run ops) := by
  have hnd := run_keys_nodup ops
  set s := SpatialIndex.run ops with hs
  by_cases hany : s.any (fun e => e.item_id = id)
  · have hmem : ∃ e ∈ s, e.item_id = id := by simpa using hany
    refine ⟨by simp [SpatialIndex.remove, hany, hmem], fun _ => ⟨?_, ?_, ?_⟩, ?_⟩
    · simp only [SpatialIndex.remove, hany, if_true]
      exact filter_length_of_mem s id hnd hmem
    · intro x y hq
      simp only [SpatialIndex.remove, hany, if_true, SpatialIndex.query_point] at hq
      rcases List.mem_map.mp hq with ⟨e, he, hei⟩
      rcases List.mem_filter.mp he with ⟨he2, _⟩
      rcases List.mem_filter.mp he2 with ⟨_, hne⟩
      simp_all
    · intro a b c d hq
      simp only [SpatialIndex.remove, hany, if_true, SpatialIndex.query_rect] at hq
      rcases List.mem_map.mp hq with ⟨e, he, hei⟩
      rcases List.mem_filter.mp he with ⟨he2, _⟩
      rcases List.mem_filter.mp he2 with ⟨_, hne⟩
      simp_all
    · intro hfalse
      simp [SpatialIndex.remove, hany] at hfalse
  · have hnomem : ¬ ∃ e ∈ s, e.item_id = id := by simpa using hany
    refine ⟨by simp [SpatialIndex.remove, hany, hnomem], fun ht => ?_, fun _ => ?_⟩
    · simp [SpatialIndex.remove, hany] at ht
    · simp [SpatialIndex.remove, hany]

/-! ### History lemmas -/

theorem commitAll_closed {α : Type} (cap : ℕ) (snaps : List α) :
    ∀ (l : List α), l ≠ [] → l.length ≤ cap + 1 →
      History.commitAll cap ⟨l, l.length - 1⟩ snaps =
        ⟨(l ++ snaps).drop ((l ++ snaps).length - (cap + 1)),
         min (cap + 1) (l.length + snaps.length) - 1⟩ := by
  induction snaps with
  | nil =>
    intro l hne hle
    simp only [History.commitAll, List.foldl_nil, List.append_nil]
    congr 1
    · rw [show l.length - (cap + 1) = 0 from by omega, List.drop_zero]
    · simp only [List.length_nil]
      omega
  | cons snap rest ih =>
    intro l hne hle
    have hlen : 0 < l.length := List.length_pos.mpr hne
    have htake : l.take (l.length - 1 + 1) = l := by
      rw [Nat.sub_add_cancel hlen, List.take_length]
    rw [History.commitAll, List.foldl_cons]
    rw [show (History.commit cap ⟨l, l.length - 1⟩ snap) =
        if cap + 1 < (l ++ [snap]).length then
          ⟨(l ++ [snap]).drop ((l ++ [snap]).length - (cap + 1)), cap⟩
        else ⟨l ++ [snap], (l ++ [snap]).length - 1⟩ from by
      simp [History.commit, htake]]
    by_cases hcase : cap + 1 < (l ++ [snap]).length
    · simp only [hcase, if_true]
      have hlcap : l.length = cap + 1 := by
        simp only [List.length_append, List.length_cons, List.length_nil] at hcase
        omega
      have hd1 : (l ++ [snap]).length - (cap + 1) = 1 := by
        simp only [List.length_append, List.length_cons, List.length_nil]
        omega
      rw [hd1]
      set l2 := (l ++ [snap]).drop 1 with hl2
      have hl2len : l2.length = cap + 1 := by
        rw [hl2, List.length_drop]
        simp only [List.length_append, List.length_cons, List.length_nil]
        omega
      have hl2ne : l2 ≠ [] := by
        intro hc
        rw [hc] at hl2len
        simp at hl2len
      have ihl2 := ih l2 hl2ne (le_of_eq hl2len)
      rw [History.commitAll] at ihl2
      have hstart : (⟨l2, cap⟩ : History α) = ⟨l2, l2.length - 1⟩ := by
        congr 1
        omega
      rw [hstart, ihl2]
      congr 1
      · rw [show l2 ++ rest = ((l ++ [snap]) ++ rest).drop 1 from by
          rw [hl2]
          exact (List.drop_append_of_le_length (by simp)).symm]
        rw [List.drop_drop]
        rw [show l ++ snap :: rest = (l ++ [snap]) ++ rest from by simp]
        congr 1
        simp only [List.length_drop, List.length_append, List.length_cons,
          List.length_nil]
        omega
      · rw [hl2len]
        simp only [List.length_cons]
        omega
    · simp only [hcase, if_false]
      have hle2 : (l ++ [snap]).length ≤ cap + 1 := Nat.le_of_not_lt hcase
      have hne2 : l ++ [snap] ≠ [] := by simp
      have ihl := ih (l ++ [snap]) hne2 hle2
      rw [History.commitAll] at ihl
      rw [ihl]
      congr 1
      · rw [List.append_assoc]
        simp
      · simp only [List.length_append, List.length_cons, List.length_nil]
        omega

/-- C4: History bound — committing `N > cap` snapshots on a fresh history
(baseline snapshot `s0`) retains exactly `cap` past entries plus the
current one, the oldest dropped first: the stored entries are exactly the
last `cap + 1` elements of `s0 :: snaps`. -/
theorem history_bound {α : Type} (cap : ℕ) (s0 : α) (snaps : List α)
    (h : cap < snaps.length) :
    (History.commitAll cap (History.init s0) snaps).entries =
      (s0 :: snaps).drop (snaps.length - cap) ∧
    (History.commitAll cap (History.init s0) snaps).entries.length = cap + 1 := by
  have hclosed := commitAll_closed cap snaps [s0] (by simp) (by simp)
  have : History.init s0 = (⟨[s0], [s0].length - 1⟩ : History α) := by
    simp [History.init]
  rw [this, hclosed]
  constructor
  · simp only [List.cons_append, List.nil_append, List.length_cons]
    congr 1
    omega
  · simp only [List.length_drop, List.length_append, List.length_cons,
      List.length_nil]
    omega

/-- Witness for C4: committing `MAX_HISTORY_STATES + 1 = 51` snapshots
keeps exactly the last `51` of the `52` snapshots ever taken. -/
theorem history_bound_witness :
    MAX_HISTORY_STATES < (List.range (MAX_HISTORY_STATES + 1)).length ∧
    ((History.commitAll MAX_HISTORY_STATES (History.init 1000)
        (List.range (MAX_HISTORY_STATES + 1))).entries =
      (1000 :: List.range (MAX_HISTORY_STATES + 1)).drop
        ((List.range (MAX_HISTORY_STATES + 1)).length - MAX_HISTORY_STATES) ∧
     (History.commitAll MAX_HISTORY_STATES (History.init 1000)
        (List.range (MAX_HISTORY_STATES + 1))).entries.length =
       MAX_HISTORY_STATES + 1) :=
  ⟨by decide,
   history_bound MAX_HISTORY_STATES 1000 (List.range (MAX_HISTORY_STATES + 1))
     (by decide)⟩

/-- C5: Branch pruning — committing after two undos keeps only the entries
up to the cursor (all redo entries are discarded before appending), and a
subsequent `redo` returns `false`; this holds for every starting history,
in particular for the spec's `commit A, B, C; undo; undo; commit D`
example. -/
theorem history_branch_pruning {α : Type} (cap : ℕ) (h : History α) (snap : α) :
    (History.commit cap ((((h.undo).1).undo).1) snap).entries =
      (((((h.undo).1).undo).1).entries.take (((((h.undo).1).undo).1).cursor + 1)
          ++ [snap]).drop
        ((((((h.undo).1).undo).1).entries.take (((((h.undo).1).undo).1).cursor + 1)
          ++ [snap]).length - (cap + 1)) ∧
    ((History.commit cap ((((h.undo).1).undo).1) snap).redo).2 = false := by
  set h2 := (((h.undo).1).undo).1 with hh2
  set ap := h2.entries.take (h2.cursor + 1) ++ [snap] with hap
  have hcommit : History.commit cap h2 snap =
      if cap + 1 < ap.length then ⟨ap.drop (ap.length - (cap + 1)), cap⟩
      else ⟨ap, ap.length - 1⟩ := rfl
  rw [hcommit]
  have happos : 0 < ap.length := by
    rw [hap]
    simp
  by_cases hcase : cap + 1 < ap.length
  · rw [if_pos hcase]
    refine ⟨rfl, ?_⟩
    rw [History.redo]
    have hlen : (ap.drop (ap.length - (cap + 1))).length = cap + 1 := by
      rw [List.length_drop]
      omega
    simp [hlen]
  · rw [if_neg hcase]
    constructor
    · rw [show ap.length - (cap + 1) = 0 from by omega, List.drop_zero]
    · rw [History.redo]
      have hnot : ¬ (ap.length - 1 + 1 < ap.length) := by omega
      simp [hnot]

/-- C6: Drag coalescing evaluated at the failing gesture — shift-clicking
the already-selected item `0` removes it from the selection and starts
dragging it; after one pointer-move and the pointer-up, exactly one
history entry was committed (coalescing holds) and the item sits at
`(100, 100)`, but its spatial-index entry still carries the pre-drag box
`(0,0)–(100,100)`: the index was not updated for the moved item, because
finalization only refreshes the entries of *selected* items. -/
theorem drag_coalescing_stale_index :
    (AppState.run window0 stateItemSelected
      [.down ⟨⟨64, 60⟩, true, 1⟩, .move ⟨⟨164, 160⟩, true, 1⟩,
       .up ⟨⟨164, 160⟩, true, 1⟩]).board
    = some { boardOneText with
        items := [{ id := 0, position := (100, 100), size := (100, 100),
                    content := .text }]
        history_count := 1
        dirty := true } ∧
    SpatialIndex.entryFor boardOneText.spatial 0 =
      some (SpatialEntry.new 0 (0, 0) (100, 100)) ∧
    SpatialEntry.new 0 (0, 0) (100, 100) ≠ SpatialEntry.new 0 (100, 100) (100, 100) :=
  ⟨rfl, rfl, by decide⟩

/-- C1 counterexample: from the combined idle state with the Table tool
active, the event sequence pointer-down on empty canvas (which sets the
drawing-start marker) followed by a second pointer-down on item `0`
(which starts `DraggingItems` without clearing the marker) reaches a
state with two interaction modes active simultaneously. -/
theorem input_modes_cex :
    stateTableTool.combinedIdle ∧
    (AppState.run window0 stateTableTool
      [.down ⟨⟨1000, 1000⟩, false, 1⟩, .down ⟨⟨64, 60⟩, false, 1⟩]).modeCount = 2 :=
  ⟨⟨rfl, rfl⟩, rfl⟩

/-! ### Mode-exclusivity lemmas -/

theorem modeCount_marker_none (s : AppState) (h : s.drawing_start = none) :
    s.modeCount = 1 := by
  cases hin : s.input_state <;>
    simp [AppState.modeCount, AppState.drawingActive, hin, h, InputState.is_idle,
      InputState.is_canvas_panning, InputState.is_dragging_items, InputState.is_resizing,
      InputState.is_marquee_selecting, InputState.is_splitter_dragging]

theorem modeCount_idle (s : AppState) (h : s.input_state = .idle) :
    s.modeCount = 1 := by
  cases hds : s.drawing_start <;>
    simp [AppState.modeCount, AppState.drawingActive, h, hds, InputState.is_idle,
      InputState.is_canvas_panning, InputState.is_dragging_items, InputState.is_resizing,
      InputState.is_marquee_selecting, InputState.is_splitter_dragging]

theorem modeCount_move (w : WindowSize) (s : AppState) (e : MouseEvent) :
    (handleMouseMove w s e).modeCount = s.modeCount := by
  rw [handleMouseMove]
  cases hin : s.input_state <;>
    cases hb : s.board <;>
      cases hp : s.preview <;>
        simp only [hin, hb, hp, InputState.is_splitter_dragging,
          InputState.is_pane_splitter_dragging, paneSplitterMove, resizeMove, dragMove,
          InputState.update_last_mouse_pos, InputState.set_marquee_current,
          Bool.false_eq_true, if_false, if_true, reduceCtorEq] <;>
        (try split) <;> (try split) <;>
        simp [AppState.modeCount, AppState.drawingActive, hin,
          InputState.is_idle, InputState.is_canvas_panning, InputState.is_dragging_items,
          InputState.is_resizing, InputState.is_marquee_selecting,
          InputState.is_splitter_dragging]

theorem modeCount_up (s : AppState) (e : MouseEvent) :
    (handleMouseUp s e).modeCount = 1 := by
  rw [handleMouseUp, drawingFinalize]
  cases hds : (marqueeFinalize (mouseUpHistoryPhase s) e).drawing_start with
  | none => exact modeCount_idle _ rfl
  | some start =>
    dsimp only
    split
    · exact modeCount_marker_none _ rfl
    · exact modeCount_marker_none _ rfl

theorem modeCount_down (w : WindowSize) (s : AppState) (e : MouseEvent)
    (h : s.combinedIdle) : (handleMouseDown w s e).modeCount = 1 := by
  obtain ⟨hin, hds⟩ := h
  have hItem : ∀ (board : Board) (id : ℕ),
      (mouseDownOnItem s board e id).modeCount = 1 := by
    intro board id
    rw [mouseDownOnItem]
    dsimp only
    split
    · exact modeCount_idle _ hin
    · split
      · exact modeCount_idle _ hin
      · split
        · exact modeCount_marker_none _ hds
        · exact modeCount_marker_none _ hds
  have hCanvas : ∀ (board : Board), (mouseDownCanvas s board e).modeCount = 1 := by
    intro board
    rw [mouseDownCanvas]
    dsimp only
    split
    · exact modeCount_idle _ hin
    · split
      · exact hItem _ _
      · split
        · exact modeCount_marker_none _ hds
        · exact modeCount_idle _ hin
  rw [handleMouseDown]
  cases hb : s.board with
  | none => exact modeCount_idle s hin
  | some board =>
    cases hp : s.preview with
    | none => exact hCanvas board
    | some preview =>
      dsimp only
      split
      · exact modeCount_marker_none _ hds
      · split
        · exact modeCount_idle _ hin
        · exact hCanvas board

theorem okSeq_append_left (w : WindowSize) :
    ∀ (es t : List PointerEvent) (s : AppState),
      okSeq w s (es ++ t) → okSeq w s es := by
  intro es
  induction es with
  | nil => intro t s _; trivial
  | cons e rest ih =>
    intro t s h
    exact ⟨h.1, ih t _ h.2⟩

theorem okSeq_modeCount (w : WindowSize) :
    ∀ (es : List PointerEvent) (s : AppState),
      s.modeCount = 1 → okSeq w s es → (AppState.run w s es).modeCount = 1 := by
  intro es
  induction es with
  | nil =>
    intro s h _
    simpa [AppState.run] using h
  | cons e rest ih =>
    intro s h hok
    rw [AppState.run, List.foldl_cons]
    refine ih _ ?_ hok.2
    cases e with
    | down ev => exact modeCount_down w s ev (hok.1 ev rfl)
    | move ev => exact (modeCount_move w s ev).trans h
    | up ev => exact modeCount_up s ev

/-- C1 (amended): Input-state exclusivity under the single-pointer gesture
discipline — starting from the combined idle state, along any pointer
event sequence in which every pointer-down is delivered while the machine
is idle with the drawing marker clear, every reachable state (every
prefix of the sequence) has exactly one of the seven interaction modes
active, Drawing counting as active whenever the drawing-start marker is
set. -/
theorem input_modes_exclusive (w : WindowSize) (s : AppState)
    (es t : List PointerEvent) (h0 : s.combinedIdle)
    (hok : okSeq w s (es ++ t)) :
    (AppState.run w s es).modeCount = 1 := by
  obtain ⟨hin, hds⟩ := h0
  have h1 : s.modeCount = 1 := by
    simp [AppState.modeCount, AppState.drawingActive, hin, hds,
      InputState.is_idle, InputState.is_canvas_panning, InputState.is_dragging_items,
      InputState.is_resizing, InputState.is_marquee_selecting,
      InputState.is_splitter_dragging]
  exact okSeq_modeCount w es s h1 (okSeq_append_left w es t s hok)

/-- Witness for C1 (amended): the disciplined gesture pointer-down on item
`0`, pointer-move, pointer-up keeps exactly one mode active after the
down-move prefix. -/
theorem input_modes_exclusive_witness :
    stateItemSelected.combinedIdle ∧
    okSeq window0 stateItemSelected
      [.down ⟨⟨64, 60⟩, false, 1⟩, .move ⟨⟨164, 160⟩, false, 1⟩,
       .up ⟨⟨164, 160⟩, false, 1⟩] ∧
    (AppState.run window0 stateItemSelected
      [.down ⟨⟨64, 60⟩, false, 1⟩, .move ⟨⟨164, 160⟩, false, 1⟩]).modeCount = 1 := by
  have hok : okSeq window0 stateItemSelected
      [.down ⟨⟨64, 60⟩, false, 1⟩, .move ⟨⟨164, 160⟩, false, 1⟩,
       .up ⟨⟨164, 160⟩, false, 1⟩] := by
    refine ⟨fun ev hev => ⟨rfl, rfl⟩, fun ev hev => ?_, fun ev hev => ?_, trivial⟩ <;>
      cases hev
  exact ⟨⟨rfl, rfl⟩, hok,
    input_modes_exclusive window0 stateItemSelected
      [.down ⟨⟨64, 60⟩, false, 1⟩, .move ⟨⟨164, 160⟩, false, 1⟩]
      [.up ⟨⟨164, 160⟩, false, 1⟩] ⟨rfl, rfl⟩ hok⟩

/-! ### Item-update lemmas -/

theorem updateFirst_eq_map (l : List CanvasItem) (id : ℕ) (f : CanvasItem → CanvasItem)
    (hnd : (l.map CanvasItem.id).Nodup) :
    updateFirst l id f = l.map (fun it => if it.id = id then f it else it) := by
  induction l with
  | nil => rfl
  | cons it rest ih =>
    simp only [List.map_cons, List.nodup_cons] at hnd
    by_cases h : it.id = id
    · rw [updateFirst, if_pos h, List.map_cons, if_pos h]
      congr 1
      have hrest : ∀ a ∈ rest, (if a.id = id then f a else a) = a := by
        intro a ha
        rw [if_neg]
        intro hc
        exact hnd.1 (h ▸ hc ▸ List.mem_map.mpr ⟨a, ha, rfl⟩)
      rw [List.map_congr_left hrest]
      simp
    · rw [updateFirst, if_neg h, List.map_cons, if_neg h, ih hnd.2]

theorem updateFirst_ids (l : List CanvasItem) (id : ℕ) (f : CanvasItem → CanvasItem)
    (hf : ∀ it, (f it).id = it.id) :
    (updateFirst l id f).map CanvasItem.id = l.map CanvasItem.id := by
  induction l with
  | nil => rfl
  | cons it rest ih =>
    by_cases h : it.id = id
    · rw [updateFirst, if_pos h, List.map_cons, List.map_cons, hf]
    · rw [updateFirst, if_neg h, List.map_cons, List.map_cons, ih]

theorem foldl_updateFirst_move (dx dy : ℚ) :
    ∀ (sel : List ℕ) (l : List CanvasItem), (l.map CanvasItem.id).Nodup → sel.Nodup →
      sel.foldl (fun items id => updateFirst items id (fun it =>
        { it with position := (it.position.1 + dx, it.position.2 + dy) })) l =
      l.map (fun it => if it.id ∈ sel then
        { it with position := (it.position.1 + dx, it.position.2 + dy) } else it) := by
  intro sel
  induction sel with
  | nil =>
    intro l _ _
    simp
  | cons x rest ih =>
    intro l hnd hselnd
    simp only [List.nodup_cons] at hselnd
    rw [List.foldl_cons]
    rw [ih (updateFirst l x _)
      (by rw [updateFirst_ids]; exact hnd; intro it; rfl) hselnd.2]
    rw [updateFirst_eq_map l x _ hnd, List.map_map]
    apply List.map_congr_left
    intro a _
    by_cases hax : a.id = x
    · simp [Function.comp, hax, hselnd.1, List.mem_cons]
    · by_cases har : a.id ∈ rest <;>
        simp [Function.comp, hax, har, List.mem_cons]

/-- C7: Group-move semantics — during a `DraggingItems` gesture on primary
item `primary` with anchor offset `offset`, a pointer-move to position
`e.position` targets the canvas point `target`; when the primary item is
part of a multi-item selection every selected item's position changes by
exactly the delta `target - old primary position` (the primary's own
delta), and items outside the selection are unchanged; otherwise only the
primary item moves (to `target`) and every other item is unchanged. -/
theorem group_move_semantics (w : WindowSize) (s : AppState) (e : MouseEvent)
    (board : Board) (primary : ℕ) (offset : Pt) (pit : CanvasItem)
    (hb : s.board = some board)
    (hin : s.input_state = .draggingItems primary offset)
    (hitem : board.get_item primary = some pit)
    (hnd : (board.items.map CanvasItem.id).Nodup)
    (hselnd : s.selected_items.Nodup) :
    ∃ board2, (handleMouseMove w s e).board = some board2 ∧
      (let target := CoordinateConverter.screen_to_canvas
        ⟨e.position.x - offset.x, e.position.y - offset.y⟩ board.canvas_offset board.zoom
       let dx := target.x - pit.position.1
       let dy := target.y - pit.position.2
       (primary ∈ s.selected_items ∧ 1 < s.selected_items.length →
         board2.items = board.items.map (fun it =>
           if it.id ∈ s.selected_items then
             { it with position := (it.position.1 + dx, it.position.2 + dy) }
           else it)) ∧
       (¬ (primary ∈ s.selected_items ∧ 1 < s.selected_items.length) →
         board2.items = board.items.map (fun it =>
           if it.id = primary then { it with position := (target.x, target.y) }
           else it))) := by
  rw [handleMouseMove]
  have hsp : ({ s with last_drop_pos := some e.position } : AppState).input_state
      = s.input_state := rfl
  rw [hsp, hin]
  simp only [InputState.is_splitter_dragging, InputState.is_pane_splitter_dragging,
    Bool.false_eq_true, if_false]
  have hbb : ({ s with last_drop_pos := some e.position } : AppState).board = s.board := rfl
  rw [hbb, hb]
  dsimp only
  rw [dragMove]
  rw [hitem]
  dsimp only [Option.map]
  refine ⟨_, rfl, ?_, ?_⟩
  · intro hgroup
    rw [if_pos (by simpa using hgroup)]
    simp only [Board.mark_dirty]
    exact foldl_updateFirst_move _ _ s.selected_items board.items hnd hselnd
  · intro hsingle
    rw [if_neg (by simpa using hsingle)]
    simp only [Board.mark_dirty]
    exact updateFirst_eq_map board.items primary _ hnd

/-- Witness for C7: dragging item `0` (sole member of the selection) of
`boardOneText` moves it to the canvas target and leaves nothing else. -/
theorem group_move_semantics_witness :
    (stateDraggingItem.board = some boardOneText ∧
     stateDraggingItem.input_state = .draggingItems 0 ⟨20, 20⟩ ∧
     boardOneText.get_item 0 = some
       { id := 0, position := (0, 0), size := (100, 100), content := .text } ∧
     (boardOneText.items.map CanvasItem.id).Nodup ∧
     stateDraggingItem.selected_items.Nodup) ∧
    ∃ board2,
      (handleMouseMove window0 stateDraggingItem ⟨⟨164, 160⟩, false, 1⟩).board
        = some board2 ∧
      (let target := CoordinateConverter.screen_to_canvas
        ⟨(164 : ℚ) - 20, (160 : ℚ) - 20⟩ boardOneText.canvas_offset boardOneText.zoom
       let dx := target.x - 0
       let dy := target.y - 0
       (0 ∈ stateDraggingItem.selected_items ∧
           1 < stateDraggingItem.selected_items.length →
         board2.items = boardOneText.items.map (fun it =>
           if it.id ∈ stateDraggingItem.selected_items then
             { it with position := (it.position.1 + dx, it.position.2 + dy) }
           else it)) ∧
       (¬ (0 ∈ stateDraggingItem.selected_items ∧
           1 < stateDraggingItem.selected_items.length) →
         board2.items = boardOneText.items.map (fun it =>
           if it.id = 0 then { it with position := (target.x, target.y) }
           else it))) :=
  ⟨⟨rfl, rfl, rfl, by decide, by decide⟩,
   group_move_semantics window0 stateDraggingItem ⟨⟨164, 160⟩, false, 1⟩
     boardOneText 0 ⟨20, 20⟩
     { id := 0, position := (0, 0), size := (100, 100), content := .text }
     rfl rfl rfl (by decide) (by decide)⟩

/-! ### Arrow-resize lemmas -/

theorem find_updateFirst (l : List CanvasItem) (id : ℕ) (f : CanvasItem → CanvasItem)
    (hf : ∀ it, (f it).id = it.id) (it : CanvasItem)
    (h : l.find? (fun x => x.id = id) = some it) :
    (updateFirst l id f).find? (fun x => x.id = id) = some (f it) := by
  induction l with
  | nil => simp at h
  | cons a rest ih =>
    by_cases ha : a.id = id
    · rw [List.find?_cons_of_pos _ (by simpa using ha)] at h
      rw [updateFirst, if_pos ha]
      rw [List.find?_cons_of_pos _ (by simpa using (hf a).trans ha)]
      rw [Option.some_inj] at h
      rw [h]
    · rw [List.find?_cons_of_neg _ (by simpa using ha)] at h
      rw [updateFirst, if_neg ha]
      rw [List.find?_cons_of_neg _ (by simpa using ha)]
      exact ih h

theorem from_offset_signs_fixed (o : ℚ × ℚ) (nw nh : ℚ) (hw : 0 < nw) (hh : 0 < nh) :
    ArrowDirection.from_offset
      (nw * ((ArrowDirection.from_offset o).to_signs).1,
       nh * ((ArrowDirection.from_offset o).to_signs).2) =
    ArrowDirection.from_offset o := by
  by_cases h1 : 0 ≤ o.1 <;> by_cases h2 : 0 ≤ o.2 <;>
    simp [ArrowDirection.from_offset, ArrowDirection.to_signs, h1, h2, mul_one,
      mul_neg_one, neg_nonneg, le_of_lt hw, le_of_lt hh, not_le.mpr hw, not_le.mpr hh]

/-- C8 counterexample: resizing the arrow of `boardOneArrow` (stored end
offset `(100, 100)`, up-right quadrant) with a pointer-move whose resize
delta is `(-200, -200)` (down-left quadrant) produces the end offset
`(20, 20)` — the sign is taken from the stored offset's quadrant, not
re-derived from the resize delta's quadrant, which would have demanded
down-left signs. -/
theorem arrow_resize_sign_cex :
    ((handleMouseMove window0 stateResizingArrow ⟨⟨100, 100⟩, false, 1⟩).board.map
      (fun b => (b.get_item 0).map CanvasItem.content)) = some (some (.arrow (20, 20))) ∧
    ((100 : ℚ) - 300) / boardOneArrow.zoom = -200 ∧
    ArrowDirection.from_offset (20, 20) ≠ ArrowDirection.from_offset (-200, -200) :=
  ⟨rfl, rfl, by decide⟩

/-- C8 (amended): Directional-sign derivation on resize — when resizing an
arrow item, the new end offset re-applies to the new magnitudes the signs
extracted from the quadrant of the *stored* end offset, so the connector's
quadrant is preserved across every resize; the resize delta's quadrant
never flips the sign. -/
theorem arrow_resize_sign (w : WindowSize) (s : AppState) (e : MouseEvent)
    (board : Board) (item_id : ℕ) (ss : ℚ × ℚ) (sp : Pt) (ofs : Option ℚ)
    (it : CanvasItem) (o : ℚ × ℚ)
    (hb : s.board = some board)
    (hin : s.input_state = .resizingItem item_id ss sp ofs)
    (hget : board.get_item item_id = some it)
    (hcontent : it.content = .arrow o) :
    ∃ board2 nw nh, (handleMouseMove w s e).board = some board2 ∧
      MIN_ARROW_SIZE ≤ nw ∧ MIN_ARROW_SIZE ≤ nh ∧
      (board2.get_item item_id).map CanvasItem.content =
        some (.arrow (nw * ((ArrowDirection.from_offset o).to_signs).1,
                      nh * ((ArrowDirection.from_offset o).to_signs).2)) ∧
      ArrowDirection.from_offset
        (nw * ((ArrowDirection.from_offset o).to_signs).1,
         nh * ((ArrowDirection.from_offset o).to_signs).2) =
        ArrowDirection.from_offset o := by
  rw [handleMouseMove]
  have hsp : ({ s with last_drop_pos := some e.position } : AppState).input_state
      = s.input_state := rfl
  rw [hsp, hin]
  simp only [InputState.is_splitter_dragging, InputState.is_pane_splitter_dragging,
    Bool.false_eq_true, if_false]
  have hbb : ({ s with last_drop_pos := some e.position } : AppState).board = s.board := rfl
  rw [hbb, hb]
  dsimp only
  rw [resizeMove]
  rw [hget]
  dsimp only [Option.map]
  rw [show resizeKind it.content = ResizeKind.arrow from by rw [hcontent]; rfl]
  dsimp only
  refine ⟨_,
    max (ss.1 * (max ((((ss.1 + (e.position.x - sp.x) / board.zoom) / ss.1) +
      ((ss.2 + (e.position.y - sp.y) / board.zoom) / ss.2)) / 2) (1 / 10))) MIN_ARROW_SIZE,
    max (ss.2 * (max ((((ss.1 + (e.position.x - sp.x) / board.zoom) / ss.1) +
      ((ss.2 + (e.position.y - sp.y) / board.zoom) / ss.2)) / 2) (1 / 10))) MIN_ARROW_SIZE,
    rfl, le_max_right _ _, le_max_right _ _, ?_, ?_⟩
  · rw [Board.mark_dirty]
    rw [Board.get_item]
    dsimp only
    rw [find_updateFirst board.items item_id _ ?hfpres it hget]
    case hfpres =>
      intro x
      cases x with
      | mk i pos sz c =>
        cases c <;> first | rfl | (cases ofs <;> rfl)
    dsimp only [Option.map]
    rw [hcontent]
  · apply from_offset_signs_fixed
    · exact lt_of_lt_of_le (by norm_num [MIN_ARROW_SIZE]) (le_max_right _ _)
    · exact lt_of_lt_of_le (by norm_num [MIN_ARROW_SIZE]) (le_max_right _ _)

/-- Witness for C8 (amended): resizing the arrow of `boardOneArrow`
preserves the up-right quadrant of its stored end offset. -/
theorem arrow_resize_sign_witness :
    (stateResizingArrow.board = some boardOneArrow ∧
     stateResizingArrow.input_state = .resizingItem 0 (100, 100) ⟨300, 300⟩ none ∧
     boardOneArrow.get_item 0 = some
       { id := 0, position := (0, 0), size := (100, 100), content := .arrow (100, 100) } ∧
     ({ id := 0, position := (0, 0), size := (100, 100),
        content := .arrow (100, 100) } : CanvasItem).content = .arrow (100, 100)) ∧
    ∃ board2 nw nh,
      (handleMouseMove window0 stateResizingArrow ⟨⟨100, 100⟩, false, 1⟩).board
        = some board2 ∧
      MIN_ARROW_SIZE ≤ nw ∧ MIN_ARROW_SIZE ≤ nh ∧
      (board2.get_item 0).map CanvasItem.content =
        some (.arrow (nw * ((ArrowDirection.from_offset ((100 : ℚ), (100 : ℚ))).to_signs).1,
                      nh * ((ArrowDirection.from_offset ((100 : ℚ), (100 : ℚ))).to_signs).2)) ∧
      ArrowDirection.from_offset
        (nw * ((ArrowDirection.from_offset ((100 : ℚ), (100 : ℚ))).to_signs).1,
         nh * ((ArrowDirection.from_offset ((100 : ℚ), (100 : ℚ))).to_signs).2) =
        ArrowDirection.from_offset ((100 : ℚ), (100 : ℚ)) :=
  ⟨⟨rfl, rfl, rfl, rfl⟩,
   arrow_resize_sign window0 stateResizingArrow ⟨⟨100, 100⟩, false, 1⟩ boardOneArrow
     0 (100, 100) ⟨300, 300⟩ none
     { id := 0, position := (0, 0), size := (100, 100), content := .arrow (100, 100) }
     (100, 100) rfl rfl rfl rfl⟩

/-! ## Lifecycle policy lemmas -/

theorem markerLookup_cons_self (e : ℕ × ℕ) (rest : List (ℕ × ℕ)) (id : ℕ)
    (h : e.1 = id) : markerLookup (e :: rest) id = some e.2 := by
  simp [markerLookup, h]

theorem markerLookup_cons_ne (e : ℕ × ℕ) (rest : List (ℕ × ℕ)) (id : ℕ)
    (h : ¬ e.1 = id) : markerLookup (e :: rest) id = markerLookup rest id := by
  simp [markerLookup, h]

theorem markerLookup_insert_self (m : List (ℕ × ℕ)) (id t : ℕ) :
    markerLookup (markerInsert m id t) id
      = some ((markerLookup m id).getD t) := by
  cases hf : m.find? (fun e => e.1 = id) with
  | none => simp [markerInsert, markerLookup, hf]
  | some e => simp [markerInsert, markerLookup, hf]

theorem markerLookup_insert_ne (m : List (ℕ × ℕ)) (x id t : ℕ) (h : x ≠ id) :
    markerLookup (markerInsert m x t) id = markerLookup m id := by
  cases hf : m.find? (fun e => e.1 = x) with
  | none => simp [markerInsert, markerLookup, hf, h]
  | some e => simp [markerInsert, hf]

theorem markerLookup_filter_self (m : List (ℕ × ℕ)) (id : ℕ) :
    markerLookup (m.filter (fun e => e.1 ≠ id)) id = none := by
  induction m with
  | nil => rfl
  | cons e rest ih =>
    by_cases he : e.1 = id
    · rw [List.filter_cons_of_neg (by simp [he])]
      exact ih
    · rw [List.filter_cons_of_pos (by simp [he]), markerLookup_cons_ne _ _ _ he]
      exact ih

theorem markerLookup_filter_ne (m : List (ℕ × ℕ)) (x id : ℕ) (h : x ≠ id) :
    markerLookup (m.filter (fun e => e.1 ≠ x)) id = markerLookup m id := by
  induction m with
  | nil => rfl
  | cons e rest ih =>
    by_cases he : e.1 = x
    · have hne : ¬ e.1 = id := by rw [he]; exact h
      rw [List.filter_cons_of_neg (by simp [he]), markerLookup_cons_ne e rest id hne]
      exact ih
    · by_cases hid : e.1 = id
      · rw [List.filter_cons_of_pos (by simp [he]),
          markerLookup_cons_self _ _ _ hid, markerLookup_cons_self _ _ _ hid]
      · rw [List.filter_cons_of_pos (by simp [he]),
          markerLookup_cons_ne _ _ _ hid, markerLookup_cons_ne _ _ _ hid]
        exact ih

theorem markerLookup_filter_not_mem (m : List (ℕ × ℕ)) (id : ℕ)
    (rem : List ℕ) (h : id ∉ rem) :
    markerLookup (m.filter (fun e => e.1 ∉ rem)) id = markerLookup m id := by
  induction m with
  | nil => rfl
  | cons e rest ih =>
    by_cases hid : e.1 = id
    · have hkeep : e.1 ∉ rem := by rw [hid]; exact h
      rw [List.filter_cons_of_pos (by simp [hkeep]),
        markerLookup_cons_self _ _ _ hid, markerLookup_cons_self _ _ _ hid]
    · by_cases hm : e.1 ∈ rem
      · rw [List.filter_cons_of_neg (by simp [hm]), markerLookup_cons_ne _ _ _ hid]
        exact ih
      · rw [List.filter_cons_of_pos (by simp [hm]), markerLookup_cons_ne _ _ _ hid,
          markerLookup_cons_ne _ _ _ hid]
        exact ih

theorem markerLookup_none_filter (m : List (ℕ × ℕ)) (id : ℕ)
    (p : ℕ × ℕ → Bool) (h : markerLookup m id = none) :
    markerLookup (m.filter p) id = none := by
  induction m with
  | nil => rfl
  | cons e rest ih =>
    by_cases hid : e.1 = id
    · rw [markerLookup_cons_self _ _ _ hid] at h
      cases h
    · rw [markerLookup_cons_ne _ _ _ hid] at h
      cases hp : p e
      · rw [List.filter_cons_of_neg (by simp [hp])]
        exact ih h
      · rw [List.filter_cons_of_pos (by simp [hp]), markerLookup_cons_ne _ _ _ hid]
        exact ih h



theorem createStep_far (vp : ℚ × ℚ × ℚ × ℚ) (st : WebviewState) (it : PolicyItem)
    (h : ¬ item_distance_to_viewport it.position it.size vp ≤ WEBVIEW_PRELOAD_DISTANCE) :
    createStep (some vp) st it = st := by
  unfold createStep
  dsimp only
  exact if_neg h

theorem createStep_other (vpo : Option (ℚ × ℚ × ℚ × ℚ)) (st : WebviewState)
    (it : PolicyItem) (id : ℕ) (h : it.id ≠ id) :
    (id ∈ (createStep vpo st it).webviews ↔ id ∈ st.webviews) ∧
    markerLookup (createStep vpo st it).out_of_range_since id
      = markerLookup st.out_of_range_since id := by
  unfold createStep
  dsimp only
  split
  · split
    · exact ⟨Iff.rfl, markerLookup_filter_ne _ _ _ h⟩
    · refine ⟨?_, markerLookup_filter_ne _ _ _ h⟩
      simp [Ne.symm h]
  · exact ⟨Iff.rfl, rfl⟩

theorem createStep_mem_mono (vpo : Option (ℚ × ℚ × ℚ × ℚ)) (st : WebviewState)
    (it : PolicyItem) (id : ℕ) (h : id ∈ st.webviews) :
    id ∈ (createStep vpo st it).webviews := by
  unfold createStep
  dsimp only
  split
  · split
    · exact h
    · exact List.mem_append_left _ h
  · exact h

theorem createStep_marker_none (vpo : Option (ℚ × ℚ × ℚ × ℚ)) (st : WebviewState)
    (it : PolicyItem) (id : ℕ)
    (h : markerLookup st.out_of_range_since id = none) :
    markerLookup (createStep vpo st it).out_of_range_since id = none := by
  unfold createStep
  dsimp only
  split
  · split
    · exact markerLookup_none_filter _ _ _ h
    · exact markerLookup_none_filter _ _ _ h
  · exact h

theorem create_fold_far (vp : ℚ × ℚ × ℚ × ℚ) (id : ℕ) :
    ∀ (items : List PolicyItem),
      (∀ it ∈ items, it.id = id →
        ¬ item_distance_to_viewport it.position it.size vp ≤ WEBVIEW_PRELOAD_DISTANCE) →
      ∀ st : WebviewState,
        (id ∈ (items.foldl (createStep (some vp)) st).webviews ↔ id ∈ st.webviews) ∧
        markerLookup (items.foldl (createStep (some vp)) st).out_of_range_since id
          = markerLookup st.out_of_range_since id := by
  intro items
  induction items with
  | nil => intro _ st; exact ⟨Iff.rfl, rfl⟩
  | cons it rest ih =>
    intro h st
    have h' := fun x hx => h x (List.mem_cons_of_mem _ hx)
    rw [List.foldl_cons]
    by_cases hid : it.id = id
    · rw [createStep_far vp st it (h it (List.mem_cons_self it rest) hid)]
      exact ih h' st
    · obtain ⟨hmem, hmark⟩ := createStep_other (some vp) st it id hid
      obtain ⟨ihm, ihk⟩ := ih h' (createStep (some vp) st it)
      exact ⟨ihm.trans hmem, ihk.trans hmark⟩

theorem create_fold_mem_mono (vpo : Option (ℚ × ℚ × ℚ × ℚ)) (id : ℕ) :
    ∀ (items : List PolicyItem) (st : WebviewState), id ∈ st.webviews →
      id ∈ (items.foldl (createStep vpo) st).webviews := by
  intro items
  induction items with
  | nil => intro st h; exact h
  | cons it rest ih =>
    intro st h
    rw [List.foldl_cons]
    exact ih _ (createStep_mem_mono _ _ _ _ h)

theorem create_fold_marker_none (vpo : Option (ℚ × ℚ × ℚ × ℚ)) (id : ℕ) :
    ∀ (items : List PolicyItem) (st : WebviewState),
      markerLookup st.out_of_range_since id = none →
      markerLookup (items.foldl (createStep vpo) st).out_of_range_since id = none := by
  intro items
  induction items with
  | nil => intro st h; exact h
  | cons it rest ih =>
    intro st h
    rw [List.foldl_cons]
    exact ih _ (createStep_marker_none _ _ _ _ h)

theorem create_fold_near (vp : ℚ × ℚ × ℚ × ℚ) (id : ℕ) :
    ∀ (items : List PolicyItem),
      (∀ it ∈ items, it.id = id →
        item_distance_to_viewport it.position it.size vp ≤ WEBVIEW_PRELOAD_DISTANCE) →
      (∃ it ∈ items, it.id = id) →
      ∀ st : WebviewState,
        id ∈ (items.foldl (createStep (some vp)) st).webviews ∧
        markerLookup (items.foldl (createStep (some vp)) st).out_of_range_since id
          = none := by
  intro items
  induction items with
  | nil =>
    rintro _ ⟨it, hmem, _⟩ st
    cases hmem
  | cons it rest ih =>
    intro hall hex st
    rw [List.foldl_cons]
    by_cases hid : it.id = id
    · subst hid
      have hnear := hall it (List.mem_cons_self it rest) rfl
      have hstep : it.id ∈ (createStep (some vp) st it).webviews ∧
          markerLookup (createStep (some vp) st it).out_of_range_since it.id = none := by
        unfold createStep
        dsimp only
        rw [if_pos hnear]
        split
        next hmem => exact ⟨hmem, markerLookup_filter_self _ _⟩
        next hmem => exact ⟨by simp, markerLookup_filter_self _ _⟩
      exact ⟨create_fold_mem_mono _ _ rest _ hstep.1,
        create_fold_marker_none _ _ rest _ hstep.2⟩
    · have hex' : ∃ x ∈ rest, x.id = id := by
        rcases hex with ⟨x, hx, hxid⟩
        rcases List.mem_cons.mp hx with h1 | h1
        · exact absurd (h1 ▸ hxid) hid
        · exact ⟨x, h1, hxid⟩
      exact ih (fun x hx => hall x (List.mem_cons_of_mem _ hx)) hex'
        (createStep (some vp) st it)

theorem unloadStep_other (items : List PolicyItem) (vpo : Option (ℚ × ℚ × ℚ × ℚ))
    (now : ℕ) (acc : List (ℕ × ℕ) × List ℕ) (x id : ℕ) (h : x ≠ id) :
    markerLookup (unloadStep items vpo now acc x).1 id = markerLookup acc.1 id ∧
    (id ∈ (unloadStep items vpo now acc x).2 ↔ id ∈ acc.2) := by
  unfold unloadStep
  dsimp only
  repeat' split
  all_goals simp [markerLookup_insert_ne _ _ _ _ h, Ne.symm h]

theorem unloadStep_rem_mono (items : List PolicyItem) (vpo : Option (ℚ × ℚ × ℚ × ℚ))
    (now : ℕ) (acc : List (ℕ × ℕ) × List ℕ) (x id : ℕ) (h : id ∈ acc.2) :
    id ∈ (unloadStep items vpo now acc x).2 := by
  unfold unloadStep
  dsimp only
  repeat' split
  all_goals simp [h]

theorem scan_rem_mono (items : List PolicyItem) (vpo : Option (ℚ × ℚ × ℚ × ℚ))
    (now : ℕ) (id : ℕ) :
    ∀ (l : List ℕ) (acc : List (ℕ × ℕ) × List ℕ), id ∈ acc.2 →
      id ∈ (l.foldl (unloadStep items vpo now) acc).2 := by
  intro l
  induction l with
  | nil => intro acc h; exact h
  | cons x rest ih =>
    intro acc h
    rw [List.foldl_cons]
    exact ih _ (unloadStep_rem_mono _ _ _ _ _ _ h)

theorem unloadStep_absent (items : List PolicyItem) (vpo : Option (ℚ × ℚ × ℚ × ℚ))
    (now : ℕ) (acc : List (ℕ × ℕ) × List ℕ) (id : ℕ)
    (h : items.all (fun it => it.id ≠ id) = true) :
    (unloadStep items vpo now acc id).2 = acc.2 ++ [id] := by
  unfold unloadStep
  dsimp only
  rw [if_pos h]

theorem scan_absent_mem (items : List PolicyItem) (vpo : Option (ℚ × ℚ × ℚ × ℚ))
    (now : ℕ) (id : ℕ)
    (h : items.all (fun it => it.id ≠ id) = true) :
    ∀ (l : List ℕ) (acc : List (ℕ × ℕ) × List ℕ), id ∈ l →
      id ∈ (l.foldl (unloadStep items vpo now) acc).2 := by
  intro l
  induction l with
  | nil => intro acc hl; cases hl
  | cons x rest ih =>
    intro acc hl
    rw [List.foldl_cons]
    by_cases hx : x = id
    · subst hx
      refine scan_rem_mono _ _ _ _ rest _ ?_
      rw [unloadStep_absent _ _ _ _ _ h]
      simp
    · rcases List.mem_cons.mp hl with h1 | h1
      · exact absurd h1.symm hx
      · exact ih _ h1

theorem all_ne_false_of_find (items : List PolicyItem) (id : ℕ) (it0 : PolicyItem)
    (hf : items.find? (fun it => it.id = id) = some it0) :
    ¬ items.all (fun it => it.id ≠ id) = true := by
  intro hall
  have hmem := List.mem_of_find?_eq_some hf
  have hp : it0.id = id := by simpa using List.find?_some hf
  have h2 := (List.all_eq_true.mp hall) it0 hmem
  simp [hp] at h2

theorem find_of_exists (items : List PolicyItem) (id : ℕ)
    (hex : ∃ it ∈ items, it.id = id) :
    ∃ it0, items.find? (fun it => it.id = id) = some it0 ∧
      it0 ∈ items ∧ it0.id = id := by
  rcases hex with ⟨it, hmem, hid⟩
  have hs : (items.find? (fun it => it.id = id)).isSome := by
    rw [List.find?_isSome]
    exact ⟨it, hmem, by simp [hid]⟩
  rcases Option.isSome_iff_exists.mp hs with ⟨it0, hf⟩
  exact ⟨it0, hf, List.mem_of_find?_eq_some hf, by simpa using List.find?_some hf⟩

theorem unloadStep_keep (items : List PolicyItem) (vp : ℚ × ℚ × ℚ × ℚ) (now : ℕ)
    (id : ℕ) (it0 : PolicyItem)
    (hf : items.find? (fun it => it.id = id) = some it0)
    (hnear : ¬ WEBVIEW_UNLOAD_DISTANCE <
      item_distance_to_viewport it0.position it0.size vp) :
    ∀ acc, unloadStep items (some vp) now acc id = acc := by
  intro acc
  unfold unloadStep
  dsimp only
  rw [if_neg (all_ne_false_of_find items id it0 hf)]
  rw [hf]
  dsimp only
  rw [if_neg hnear]

theorem unloadStep_out (items : List PolicyItem) (vp : ℚ × ℚ × ℚ × ℚ) (now : ℕ)
    (id : ℕ) (it0 : PolicyItem)
    (hf : items.find? (fun it => it.id = id) = some it0)
    (hfar : WEBVIEW_UNLOAD_DISTANCE <
      item_distance_to_viewport it0.position it0.size vp)
    (acc : List (ℕ × ℕ) × List ℕ) :
    unloadStep items (some vp) now acc id =
      (markerInsert acc.1 id now,
        if WEBVIEW_UNLOAD_DELAY_MS ≤ now - (markerLookup acc.1 id).getD now
        then acc.2 ++ [id] else acc.2) := by
  unfold unloadStep
  dsimp only
  rw [if_neg (all_ne_false_of_find items id it0 hf)]
  rw [hf]
  dsimp only
  rw [if_pos hfar]
  split
  all_goals rfl

theorem scan_preserve (items : List PolicyItem) (vpo : Option (ℚ × ℚ × ℚ × ℚ))
    (now : ℕ) (id : ℕ) :
    ∀ (l : List ℕ), id ∉ l → ∀ (acc : List (ℕ × ℕ) × List ℕ),
      markerLookup (l.foldl (unloadStep items vpo now) acc).1 id
        = markerLookup acc.1 id ∧
      (id ∈ (l.foldl (unloadStep items vpo now) acc).2 ↔ id ∈ acc.2) := by
  intro l
  induction l with
  | nil => intro _ acc; exact ⟨rfl, Iff.rfl⟩
  | cons x rest ih =>
    intro hl acc
    have hx : x ≠ id := by
      intro h
      subst h
      exact hl (List.mem_cons_self _ _)
    rw [List.foldl_cons]
    obtain ⟨hm, hr⟩ := unloadStep_other items vpo now acc x id hx
    have hrest := ih (fun h => hl (List.mem_cons_of_mem _ h))
      (unloadStep items vpo now acc x)
    exact ⟨hrest.1.trans hm, hrest.2.trans hr⟩

theorem scan_keep (items : List PolicyItem) (vpo : Option (ℚ × ℚ × ℚ × ℚ))
    (now : ℕ) (id : ℕ)
    (hk : ∀ acc, unloadStep items vpo now acc id = acc) :
    ∀ (l : List ℕ) (acc : List (ℕ × ℕ) × List ℕ),
      markerLookup (l.foldl (unloadStep items vpo now) acc).1 id
        = markerLookup acc.1 id ∧
      (id ∈ (l.foldl (unloadStep items vpo now) acc).2 ↔ id ∈ acc.2) := by
  intro l
  induction l with
  | nil => intro acc; exact ⟨rfl, Iff.rfl⟩
  | cons x rest ih =>
    intro acc
    rw [List.foldl_cons]
    by_cases hx : x = id
    · subst hx
      rw [hk acc]
      exact ih acc
    · obtain ⟨hm, hr⟩ := unloadStep_other items vpo now acc x id hx
      have hrest := ih (unloadStep items vpo now acc x)
      exact ⟨hrest.1.trans hm, hrest.2.trans hr⟩

theorem scan_out_mem (items : List PolicyItem) (vp : ℚ × ℚ × ℚ × ℚ) (now : ℕ)
    (id : ℕ) (it0 : PolicyItem)
    (hf : items.find? (fun it => it.id = id) = some it0)
    (hfar : WEBVIEW_UNLOAD_DISTANCE <
      item_distance_to_viewport it0.position it0.size vp) :
    ∀ (l : List ℕ), id ∈ l → ∀ (acc : List (ℕ × ℕ) × List ℕ) (v : ℕ),
      (markerLookup acc.1 id = some v ∨
        (markerLookup acc.1 id = none ∧ v = now)) →
      markerLookup (l.foldl (unloadStep items (some vp) now) acc).1 id = some v ∧
      (WEBVIEW_UNLOAD_DELAY_MS ≤ now - v →
        id ∈ (l.foldl (unloadStep items (some vp) now) acc).2) ∧
      (¬ WEBVIEW_UNLOAD_DELAY_MS ≤ now - v →
        (id ∈ (l.foldl (unloadStep items (some vp) now) acc).2 ↔ id ∈ acc.2)) := by
  intro l
  induction l with
  | nil => intro h; cases h
  | cons x rest ih =>
    intro hl acc v hv
    rw [List.foldl_cons]
    by_cases hx : x = id
    · subst hx
      have hout := unloadStep_out items vp now x it0 hf hfar acc
      have hgetD : (markerLookup acc.1 x).getD now = v := by
        rcases hv with hv | ⟨hv, rfl⟩ <;> rw [hv] <;> rfl
      rw [hgetD] at hout
      have hm1 : markerLookup (unloadStep items (some vp) now acc x).1 x
          = some v := by
        rw [hout]
        dsimp only
        rw [markerLookup_insert_self, hgetD]
      by_cases hrest : x ∈ rest
      · have hih := ih hrest (unloadStep items (some vp) now acc x) v (Or.inl hm1)
        refine ⟨hih.1, hih.2.1, fun hD => ?_⟩
        rw [hih.2.2 hD, hout]
        simp [hD]
      · have hpres := scan_preserve items (some vp) now x rest hrest
          (unloadStep items (some vp) now acc x)
        refine ⟨hpres.1.trans hm1, fun hD => ?_, fun hD => ?_⟩
        · refine hpres.2.mpr ?_
          rw [hout]
          simp [hD]
        · rw [hpres.2, hout]
          simp [hD]
    · have hmem' : id ∈ rest := by
        rcases List.mem_cons.mp hl with h1 | h1
        · exact absurd h1.symm hx
        · exact h1
      obtain ⟨hm, hr⟩ := unloadStep_other items (some vp) now acc x id hx
      have hv' : markerLookup (unloadStep items (some vp) now acc x).1 id = some v ∨
          (markerLookup (unloadStep items (some vp) now acc x).1 id = none ∧
            v = now) := by
        rcases hv with hv | ⟨hv, hvn⟩
        · exact Or.inl (hm.trans hv)
        · exact Or.inr ⟨hm.trans hv, hvn⟩
      have hih := ih hmem' (unloadStep items (some vp) now acc x) v hv'
      exact ⟨hih.1, hih.2.1, fun hD => (hih.2.2 hD).trans hr⟩

theorem ensure_some_eq (items : List PolicyItem) (vpo : Option (ℚ × ℚ × ℚ × ℚ))
    (now : ℕ) (st : WebviewState) :
    ensure_youtube_webviews (some items) vpo now st =
      { webviews := (items.foldl (createStep vpo) st).webviews.filter
          (fun id => id ∉ ((items.foldl (createStep vpo) st).webviews.foldl
            (unloadStep items vpo now)
            ((items.foldl (createStep vpo) st).out_of_range_since, [])).2)
        out_of_range_since := ((items.foldl (createStep vpo) st).webviews.foldl
            (unloadStep items vpo now)
            ((items.foldl (createStep vpo) st).out_of_range_since, [])).1.filter
          (fun e => e.1 ∉ ((items.foldl (createStep vpo) st).webviews.foldl
            (unloadStep items vpo now)
            ((items.foldl (createStep vpo) st).out_of_range_since, [])).2) } := rfl

theorem ensure_mem_iff (items : List PolicyItem) (vpo : Option (ℚ × ℚ × ℚ × ℚ))
    (now : ℕ) (st : WebviewState) (id : ℕ) :
    id ∈ (ensure_youtube_webviews (some items) vpo now st).webviews ↔
      (id ∈ (items.foldl (createStep vpo) st).webviews ∧
        id ∉ ((items.foldl (createStep vpo) st).webviews.foldl
          (unloadStep items vpo now)
          ((items.foldl (createStep vpo) st).out_of_range_since, [])).2) := by
  rw [ensure_some_eq]
  simp [List.mem_filter]

theorem ensure_marker (items : List PolicyItem) (vpo : Option (ℚ × ℚ × ℚ × ℚ))
    (now : ℕ) (st : WebviewState) (id : ℕ)
    (hnr : id ∉ ((items.foldl (createStep vpo) st).webviews.foldl
      (unloadStep items vpo now)
      ((items.foldl (createStep vpo) st).out_of_range_since, [])).2) :
    markerLookup (ensure_youtube_webviews (some items) vpo now
        st).out_of_range_since id
      = markerLookup ((items.foldl (createStep vpo) st).webviews.foldl
          (unloadStep items vpo now)
          ((items.foldl (createStep vpo) st).out_of_range_since, [])).1 id := by
  rw [ensure_some_eq]
  exact markerLookup_filter_not_mem _ _ _ hnr

theorem ensure_marker_none (items : List PolicyItem) (vpo : Option (ℚ × ℚ × ℚ × ℚ))
    (now : ℕ) (st : WebviewState) (id : ℕ)
    (h : markerLookup ((items.foldl (createStep vpo) st).webviews.foldl
      (unloadStep items vpo now)
      ((items.foldl (createStep vpo) st).out_of_range_since, [])).1 id = none) :
    markerLookup (ensure_youtube_webviews (some items) vpo now
      st).out_of_range_since id = none := by
  rw [ensure_some_eq]
  exact markerLookup_none_filter _ _ _ h

theorem evict_absent (items : List PolicyItem) (vpo : Option (ℚ × ℚ × ℚ × ℚ))
    (now : ℕ) (st : WebviewState) (id : ℕ)
    (habsent : ∀ it ∈ items, it.id ≠ id) :
    id ∉ (ensure_youtube_webviews (some items) vpo now st).webviews := by
  intro hmem
  rw [ensure_mem_iff] at hmem
  have hall : items.all (fun it => it.id ≠ id) = true :=
    List.all_eq_true.mpr (fun it hmem2 => by simpa using habsent it hmem2)
  exact hmem.2 (scan_absent_mem items vpo now id hall _ _ hmem.1)

theorem evict_out_absent (items : List PolicyItem) (vp : ℚ × ℚ × ℚ × ℚ)
    (now : ℕ) (st : WebviewState) (id : ℕ)
    (hfar : ∀ it ∈ items, it.id = id →
      WEBVIEW_UNLOAD_DISTANCE < item_distance_to_viewport it.position it.size vp)
    (h : id ∉ st.webviews) :
    id ∉ (ensure_youtube_webviews (some items) (some vp) now st).webviews := by
  have hpre : ∀ it ∈ items, it.id = id →
      ¬ item_distance_to_viewport it.position it.size vp
        ≤ WEBVIEW_PRELOAD_DISTANCE := by
    intro it hm hid hle
    have hgt := hfar it hm hid
    have hPU : WEBVIEW_PRELOAD_DISTANCE < WEBVIEW_UNLOAD_DISTANCE := by
      norm_num [WEBVIEW_PRELOAD_DISTANCE, WEBVIEW_UNLOAD_DISTANCE]
    linarith
  intro hmem
  rw [ensure_mem_iff] at hmem
  exact h ((create_fold_far vp id items hpre st).1.mp hmem.1)

theorem tick_out_marker (items : List PolicyItem) (vp : ℚ × ℚ × ℚ × ℚ)
    (now : ℕ) (st : WebviewState) (id : ℕ)
    (hex : ∃ it ∈ items, it.id = id)
    (hfar : ∀ it ∈ items, it.id = id →
      WEBVIEW_UNLOAD_DISTANCE < item_distance_to_viewport it.position it.size vp)
    (hmem : id ∈ st.webviews) (v : ℕ)
    (hv : markerLookup st.out_of_range_since id = some v ∨
      (markerLookup st.out_of_range_since id = none ∧ v = now)) :
    (WEBVIEW_UNLOAD_DELAY_MS ≤ now - v →
      id ∉ (ensure_youtube_webviews (some items) (some vp) now st).webviews) ∧
    (¬ WEBVIEW_UNLOAD_DELAY_MS ≤ now - v →
      id ∈ (ensure_youtube_webviews (some items) (some vp) now st).webviews ∧
      markerLookup (ensure_youtube_webviews (some items) (some vp) now
        st).out_of_range_since id = some v) := by
  have hpre : ∀ it ∈ items, it.id = id →
      ¬ item_distance_to_viewport it.position it.size vp
        ≤ WEBVIEW_PRELOAD_DISTANCE := by
    intro it hm hid hle
    have hgt := hfar it hm hid
    have hPU : WEBVIEW_PRELOAD_DISTANCE < WEBVIEW_UNLOAD_DISTANCE := by
      norm_num [WEBVIEW_PRELOAD_DISTANCE, WEBVIEW_UNLOAD_DISTANCE]
    linarith
  obtain ⟨it0, hf, hmem0, hid0⟩ := find_of_exists items id hex
  have hfold := create_fold_far vp id items hpre st
  have hmem1 : id ∈ (items.foldl (createStep (some vp)) st).webviews :=
    hfold.1.mpr hmem
  have hv1 : markerLookup
      (items.foldl (createStep (some vp)) st).out_of_range_since id = some v ∨
      (markerLookup
        (items.foldl (createStep (some vp)) st).out_of_range_since id = none ∧
        v = now) := by
    rcases hv with hv | ⟨hv, hvn⟩
    · exact Or.inl (hfold.2.trans hv)
    · exact Or.inr ⟨hfold.2.trans hv, hvn⟩
  have hscan := scan_out_mem items vp now id it0 hf (hfar it0 hmem0 hid0)
    (items.foldl (createStep (some vp)) st).webviews hmem1
    ((items.foldl (createStep (some vp)) st).out_of_range_since, []) v hv1
  constructor
  · intro hD hmemr
    rw [ensure_mem_iff] at hmemr
    exact hmemr.2 (hscan.2.1 hD)
  · intro hD
    have hnr : id ∉ ((items.foldl (createStep (some vp)) st).webviews.foldl
        (unloadStep items (some vp) now)
        ((items.foldl (createStep (some vp)) st).out_of_range_since, [])).2 := by
      rw [hscan.2.2 hD]
      simp
    exact ⟨(ensure_mem_iff items (some vp) now st id).mpr ⟨hmem1, hnr⟩,
      (ensure_marker items (some vp) now st id hnr).trans hscan.1⟩

theorem evict_near (items : List PolicyItem) (vp : ℚ × ℚ × ℚ × ℚ) (now : ℕ)
    (st : WebviewState) (id : ℕ)
    (hex : ∃ it ∈ items, it.id = id)
    (hnear : ∀ it ∈ items, it.id = id →
      item_distance_to_viewport it.position it.size vp
        ≤ WEBVIEW_PRELOAD_DISTANCE) :
    id ∈ (ensure_youtube_webviews (some items) (some vp) now st).webviews ∧
    markerLookup (ensure_youtube_webviews (some items) (some vp) now
      st).out_of_range_since id = none := by
  obtain ⟨it0, hf, hmem0, hid0⟩ := find_of_exists items id hex
  have hkeep := unloadStep_keep items vp now id it0 hf (by
    have hle := hnear it0 hmem0 hid0
    have hPU : WEBVIEW_PRELOAD_DISTANCE < WEBVIEW_UNLOAD_DISTANCE := by
      norm_num [WEBVIEW_PRELOAD_DISTANCE, WEBVIEW_UNLOAD_DISTANCE]
    intro hlt
    linarith)
  have hfold := create_fold_near vp id items hnear hex st
  have hscan := scan_keep items (some vp) now id hkeep
    (items.foldl (createStep (some vp)) st).webviews
    ((items.foldl (createStep (some vp)) st).out_of_range_since, [])
  have hnr : id ∉ ((items.foldl (createStep (some vp)) st).webviews.foldl
      (unloadStep items (some vp) now)
      ((items.foldl (createStep (some vp)) st).out_of_range_since, [])).2 := by
    rw [hscan.2]
    simp
  exact ⟨(ensure_mem_iff items (some vp) now st id).mpr ⟨hfold.1, hnr⟩,
    ensure_marker_none items (some vp) now st id (hscan.1.trans hfold.2)⟩

theorem evict_band (items : List PolicyItem) (vp : ℚ × ℚ × ℚ × ℚ) (now : ℕ)
    (st : WebviewState) (id : ℕ)
    (hex : ∃ it ∈ items, it.id = id)
    (hband : ∀ it ∈ items, it.id = id →
      WEBVIEW_PRELOAD_DISTANCE <
        item_distance_to_viewport it.position it.size vp ∧
      item_distance_to_viewport it.position it.size vp
        ≤ WEBVIEW_UNLOAD_DISTANCE) :
    (id ∈ (ensure_youtube_webviews (some items) (some vp) now st).webviews ↔
      id ∈ st.webviews) ∧
    markerLookup (ensure_youtube_webviews (some items) (some vp) now
        st).out_of_range_since id
      = markerLookup st.out_of_range_since id := by
  obtain ⟨it0, hf, hmem0, hid0⟩ := find_of_exists items id hex
  have hkeep := unloadStep_keep items vp now id it0 hf (by
    have hle := (hband it0 hmem0 hid0).2
    intro hlt
    linarith)
  have hpre : ∀ it ∈ items, it.id = id →
      ¬ item_distance_to_viewport it.position it.size vp
        ≤ WEBVIEW_PRELOAD_DISTANCE :=
    fun it hm hid hle => absurd hle (not_le.mpr (hband it hm hid).1)
  have hfold := create_fold_far vp id items hpre st
  have hscan := scan_keep items (some vp) now id hkeep
    (items.foldl (createStep (some vp)) st).webviews
    ((items.foldl (createStep (some vp)) st).out_of_range_since, [])
  have hnr : id ∉ ((items.foldl (createStep (some vp)) st).webviews.foldl
      (unloadStep items (some vp) now)
      ((items.foldl (createStep (some vp)) st).out_of_range_since, [])).2 := by
    rw [hscan.2]
    simp
  constructor
  · rw [ensure_mem_iff items (some vp) now st id]
    constructor
    · intro h
      exact hfold.1.mp h.1
    · intro h
      exact ⟨hfold.1.mpr h, hnr⟩
  · exact (ensure_marker items (some vp) now st id hnr).trans
      (hscan.1.trans hfold.2)

theorem run_out_absent (id : ℕ) :
    ∀ (ts : List Tick), (∀ t ∈ ts, tickSeesOut t id) →
      ∀ st : WebviewState, id ∉ st.webviews →
        id ∉ (runTicks ts st).webviews := by
  intro ts
  induction ts with
  | nil => intro _ st h; exact h
  | cons t rest ih =>
    intro hall st h
    obtain ⟨vp, hvp, hex, hfar⟩ := hall t (List.mem_cons_self t rest)
    have h1 : id ∉ (ensure_youtube_webviews (some t.items) t.viewport t.now
        st).webviews := by
      rw [hvp]
      exact evict_out_absent t.items vp t.now st id hfar h
    exact ih (fun x hx => hall x (List.mem_cons_of_mem _ hx)) _ h1

theorem run_out_inv (id : ℕ) (t0now : ℕ) :
    ∀ (ts : List Tick), (∀ t ∈ ts, tickSeesOut t id) →
      ∀ st : WebviewState,
        (id ∈ st.webviews →
          markerLookup st.out_of_range_since id = some t0now) →
        (id ∈ (runTicks ts st).webviews →
          markerLookup (runTicks ts st).out_of_range_since id = some t0now) := by
  intro ts
  induction ts with
  | nil => intro _ st h; exact h
  | cons t rest ih =>
    intro hall st hinv
    obtain ⟨vp, hvp, hex, hfar⟩ := hall t (List.mem_cons_self t rest)
    have hstep : id ∈ (ensure_youtube_webviews (some t.items) t.viewport t.now
        st).webviews →
        markerLookup (ensure_youtube_webviews (some t.items) t.viewport t.now
          st).out_of_range_since id = some t0now := by
      intro hmem'
      rw [hvp] at hmem' ⊢
      by_cases hmem : id ∈ st.webviews
      · have hm := hinv hmem
        have hmaster := tick_out_marker t.items vp t.now st id hex hfar hmem
          t0now (Or.inl hm)
        by_cases hD : WEBVIEW_UNLOAD_DELAY_MS ≤ t.now - t0now
        · exact absurd hmem' (hmaster.1 hD)
        · exact (hmaster.2 hD).2
      · exact absurd hmem' (evict_out_absent t.items vp t.now st id hfar hmem)
    exact ih (fun x hx => hall x (List.mem_cons_of_mem _ hx)) _ hstep

theorem evict_out_run (t0 t1 : Tick) (mid : List Tick) (st : WebviewState)
    (id : ℕ)
    (h0 : tickSeesOut t0 id) (hmid : ∀ t ∈ mid, tickSeesOut t id)
    (h1 : tickSeesOut t1 id)
    (hm0 : markerLookup st.out_of_range_since id = none)
    (hdelay : t0.now + WEBVIEW_UNLOAD_DELAY_MS ≤ t1.now) :
    id ∉ (runTicks ((t0 :: mid) ++ [t1]) st).webviews := by
  obtain ⟨vp0, hvp0, hex0, hfar0⟩ := h0
  obtain ⟨vp1, hvp1, hex1, hfar1⟩ := h1
  have hsplit : runTicks ((t0 :: mid) ++ [t1]) st
      = ensure_youtube_webviews (some t1.items) t1.viewport t1.now
          (runTicks mid
            (ensure_youtube_webviews (some t0.items) t0.viewport t0.now st)) := by
    unfold runTicks
    rw [List.foldl_append]
    rfl
  rw [hsplit, hvp1]
  have hinvA : id ∈ (ensure_youtube_webviews (some t0.items) t0.viewport t0.now
      st).webviews →
      markerLookup (ensure_youtube_webviews (some t0.items) t0.viewport t0.now
        st).out_of_range_since id = some t0.now := by
    intro hmemA
    rw [hvp0] at hmemA ⊢
    by_cases hmem : id ∈ st.webviews
    · have hmaster := tick_out_marker t0.items vp0 t0.now st id hex0 hfar0 hmem
        t0.now (Or.inr ⟨hm0, rfl⟩)
      by_cases hD : WEBVIEW_UNLOAD_DELAY_MS ≤ t0.now - t0.now
      · exact absurd hmemA (hmaster.1 hD)
      · exact (hmaster.2 hD).2
    · exact absurd hmemA (evict_out_absent t0.items vp0 t0.now st id hfar0 hmem)
  have hinvB := run_out_inv id t0.now mid hmid _ hinvA
  by_cases hmemB : id ∈ (runTicks mid
      (ensure_youtube_webviews (some t0.items) t0.viewport t0.now st)).webviews
  · have hmaster := tick_out_marker t1.items vp1 t1.now _ id hex1 hfar1 hmemB
      t0.now (Or.inl (hinvB hmemB))
    exact hmaster.1 (by omega)
  · exact evict_out_absent t1.items vp1 t1.now _ id hfar1 hmemB

/-- C9 counterexample: starting with a live webview for item `7` and no
marker, a tick with the item at distance `2900` (time `0`) records the
marker `(7, 0)`; a tick with the item re-entered to distance `1000` —
inside the unload range, so "in range" for the hysteresis — at time
`WEBVIEW_UNLOAD_DELAY_MS - 1` keeps the webview but does **not** clear the
marker, contradicting the claim; a third tick back at distance `2900` at
time `WEBVIEW_UNLOAD_DELAY_MS` then destroys the webview using the stale
marker, so the item that re-entered in time is destroyed after all. -/
theorem eviction_hysteresis_cex :
    (runTicks [tickFar, tickBand] ⟨[7], []⟩).webviews = [7] ∧
    markerLookup (runTicks [tickFar, tickBand]
      ⟨[7], []⟩).out_of_range_since 7 = some 0 ∧
    tickBand.now + 1 = WEBVIEW_UNLOAD_DELAY_MS ∧
    (runTicks [tickFar, tickBand, tickFar2] ⟨[7], []⟩).webviews = [] :=
  ⟨rfl, rfl, rfl, rfl⟩

/-- C9 (amended): Eviction lifecycle of `ensure_youtube_webviews` — (1) an
id with no item left in the scene is destroyed on the tick, without delay;
(2) an id all of whose items sit within the preload distance gets its
out-of-range marker cleared and a webview ensured; (3) an id whose items
sit between the preload and the unload distance is left exactly as it was
— webview retained, and the marker **retained** as well (not cleared, as
the original claim said); (4) an id observed beyond the unload distance by
a first tick at time `T`, by any run of further such ticks, and by a final
such tick at time at least `T + WEBVIEW_UNLOAD_DELAY_MS`, has its webview
destroyed by that final tick. -/
theorem eviction_hysteresis :
    (∀ (items : List PolicyItem) (vpo : Option (ℚ × ℚ × ℚ × ℚ)) (now : ℕ)
        (st : WebviewState) (id : ℕ), (∀ it ∈ items, it.id ≠ id) →
      id ∉ (ensure_youtube_webviews (some items) vpo now st).webviews) ∧
    (∀ (items : List PolicyItem) (vp : ℚ × ℚ × ℚ × ℚ) (now : ℕ)
        (st : WebviewState) (id : ℕ), (∃ it ∈ items, it.id = id) →
      (∀ it ∈ items, it.id = id →
        item_distance_to_viewport it.position it.size vp
          ≤ WEBVIEW_PRELOAD_DISTANCE) →
      id ∈ (ensure_youtube_webviews (some items) (some vp) now st).webviews ∧
      markerLookup (ensure_youtube_webviews (some items) (some vp) now
        st).out_of_range_since id = none) ∧
    (∀ (items : List PolicyItem) (vp : ℚ × ℚ × ℚ × ℚ) (now : ℕ)
        (st : WebviewState) (id : ℕ), (∃ it ∈ items, it.id = id) →
      (∀ it ∈ items, it.id = id →
        WEBVIEW_PRELOAD_DISTANCE <
          item_distance_to_viewport it.position it.size vp ∧
        item_distance_to_viewport it.position it.size vp
          ≤ WEBVIEW_UNLOAD_DISTANCE) →
      (id ∈ (ensure_youtube_webviews (some items) (some vp) now st).webviews ↔
        id ∈ st.webviews) ∧
      markerLookup (ensure_youtube_webviews (some items) (some vp) now
          st).out_of_range_since id = markerLookup st.out_of_range_since id) ∧
    (∀ (t0 t1 : Tick) (mid : List Tick) (st : WebviewState) (id : ℕ),
      tickSeesOut t0 id → (∀ t ∈ mid, tickSeesOut t id) → tickSeesOut t1 id →
      markerLookup st.out_of_range_since id = none →
      t0.now + WEBVIEW_UNLOAD_DELAY_MS ≤ t1.now →
      id ∉ (runTicks ((t0 :: mid) ++ [t1]) st).webviews) :=
  ⟨evict_absent, evict_near, evict_band, evict_out_run⟩

/-- Witness for C9: the delayed-destruction clause applied to the two far
ticks (times `0` and `WEBVIEW_UNLOAD_DELAY_MS`) on a live webview for item
`7`, and the no-item clause applied to an empty scene. -/
theorem eviction_hysteresis_witness :
    7 ∉ (runTicks ((tickFar :: []) ++ [tickFar2]) ⟨[7], []⟩).webviews ∧
    9 ∉ (ensure_youtube_webviews (some []) none 0 ⟨[9], []⟩).webviews := by
  have hsee : ∀ t : Tick, t ∈ [tickFar, tickFar2] → tickSeesOut t 7 := by
    intro t ht
    have hitems : t.items = [⟨7, (3000, 0), (10, 10)⟩] ∧
        t.viewport = some (0, 0, 100, 100) := by
      rcases List.mem_cons.mp ht with h | h
      · subst h; exact ⟨rfl, rfl⟩
      · rcases List.mem_cons.mp h with h | h
        · subst h; exact ⟨rfl, rfl⟩
        · cases h
    refine ⟨(0, 0, 100, 100), hitems.2, ?_, ?_⟩
    · exact ⟨⟨7, (3000, 0), (10, 10)⟩, by rw [hitems.1]; simp, rfl⟩
    · intro it hm _
      rw [hitems.1] at hm
      simp only [List.mem_singleton] at hm
      subst hm
      rw [show item_distance_to_viewport ((3000 : ℚ), (0 : ℚ))
        ((10 : ℚ), (10 : ℚ)) ((0 : ℚ), (0 : ℚ), (100 : ℚ), (100 : ℚ))
          = (2900 : ℚ) from rfl]
      norm_num [WEBVIEW_UNLOAD_DISTANCE]
  constructor
  · exact eviction_hysteresis.2.2.2 tickFar tickFar2 [] ⟨[7], []⟩ 7
      (hsee tickFar (by simp)) (fun t ht => absurd ht (List.not_mem_nil t))
      (hsee tickFar2 (by simp)) rfl (by decide)
  · exact eviction_hysteresis.1 [] none 0 ⟨[9], []⟩ 9
      (fun it h => absurd h (List.not_mem_nil it))

end Humanboard
